import Mathlib

/-! Ml-Models frontend: catalog reconciliation and proxy routes.

A shallow embedding of

* `frontend/app/MLModelsHomepage.js`: `localModelConfig`, `extractPath`,
  `areArraysEqual`, `loadCachedData`, `saveCachedData`, `processModels`,
  `fetchAndMergeModels`;
* `frontend/app/api/projects/route.js` (`GET`),
  `frontend/app/api/health_check/route.js` (`GET`),
  `frontend/app/api/heart_disease/route.js` (`POST`).

Modelling choices:

* Values.  The JavaScript values that reach this code are results of
  `JSON.parse`, so the value universe is the JSON data type plus `undefined`
  (an `Option`).  A thrown exception is an `Except.error` carrying its message.
* Numbers.  The model carries the integer-valued JSON numbers, on which
  `Math.round` is the identity.  Below 10^21 their text is their decimal
  digits, as JavaScript prints them; from there on JavaScript prints an
  exponent form, which is left to the platform.  Fractions and floating-point
  rounding are outside the embedding: a value such as 92.5 is not in the type.
* Platform.  Services of the runtime that are not code of the repository
  (`JSON.stringify`, `JSON.parse`, the `URL` constructor,
  `window.location.origin`, `process.env`, numeric coercion of strings) are
  fields of `Platform`, and the statements hold for every platform.  `Ref` is
  a concrete platform whose JSON codec is proved to read back what it writes.
* Effects.  `fetchAndMergeModels` is a function from the browser storage and
  the outcome of the fetch to the list of calls it makes (`setIsLoading`,
  `setModels`, `fetch`, `localStorage.setItem`, `window.location.reload`) and
  the storage it leaves.  Console output is not recorded.
* Routes.  A route is a function from the outcome of its upstream call to the
  HTTP response it returns.
-/

namespace MlModels

/-! ## JSON values -/

/-- Values produced by `JSON.parse`.  An object is its list of members in
enumeration order. -/
inductive JSON where
  | null : JSON
  | bool (b : Bool) : JSON
  | num (n : Int) : JSON
  | str (s : String) : JSON
  | arr (xs : List JSON) : JSON
  | obj (kvs : List (String × JSON)) : JSON
  deriving Repr, Inhabited

namespace JSON

mutual
/-- Equality of values is decidable. -/
def decEq : (a b : JSON) → Decidable (a = b)
  | null, null => isTrue rfl
  | null, bool _ => isFalse (fun e => JSON.noConfusion e)
  | null, num _ => isFalse (fun e => JSON.noConfusion e)
  | null, str _ => isFalse (fun e => JSON.noConfusion e)
  | null, arr _ => isFalse (fun e => JSON.noConfusion e)
  | null, obj _ => isFalse (fun e => JSON.noConfusion e)
  | bool _, null => isFalse (fun e => JSON.noConfusion e)
  | bool x, bool y =>
    if h : x = y then isTrue (congrArg bool h) else isFalse (fun e => h (bool.inj e))
  | bool _, num _ => isFalse (fun e => JSON.noConfusion e)
  | bool _, str _ => isFalse (fun e => JSON.noConfusion e)
  | bool _, arr _ => isFalse (fun e => JSON.noConfusion e)
  | bool _, obj _ => isFalse (fun e => JSON.noConfusion e)
  | num _, null => isFalse (fun e => JSON.noConfusion e)
  | num _, bool _ => isFalse (fun e => JSON.noConfusion e)
  | num x, num y =>
    if h : x = y then isTrue (congrArg num h) else isFalse (fun e => h (num.inj e))
  | num _, str _ => isFalse (fun e => JSON.noConfusion e)
  | num _, arr _ => isFalse (fun e => JSON.noConfusion e)
  | num _, obj _ => isFalse (fun e => JSON.noConfusion e)
  | str _, null => isFalse (fun e => JSON.noConfusion e)
  | str _, bool _ => isFalse (fun e => JSON.noConfusion e)
  | str _, num _ => isFalse (fun e => JSON.noConfusion e)
  | str x, str y =>
    if h : x = y then isTrue (congrArg str h) else isFalse (fun e => h (str.inj e))
  | str _, arr _ => isFalse (fun e => JSON.noConfusion e)
  | str _, obj _ => isFalse (fun e => JSON.noConfusion e)
  | arr _, null => isFalse (fun e => JSON.noConfusion e)
  | arr _, bool _ => isFalse (fun e => JSON.noConfusion e)
  | arr _, num _ => isFalse (fun e => JSON.noConfusion e)
  | arr _, str _ => isFalse (fun e => JSON.noConfusion e)
  | arr x, arr y =>
    match decEqList x y with
    | isTrue h => isTrue (congrArg arr h)
    | isFalse h => isFalse (fun e => h (arr.inj e))
  | arr _, obj _ => isFalse (fun e => JSON.noConfusion e)
  | obj _, null => isFalse (fun e => JSON.noConfusion e)
  | obj _, bool _ => isFalse (fun e => JSON.noConfusion e)
  | obj _, num _ => isFalse (fun e => JSON.noConfusion e)
  | obj _, str _ => isFalse (fun e => JSON.noConfusion e)
  | obj _, arr _ => isFalse (fun e => JSON.noConfusion e)
  | obj x, obj y =>
    match decEqMembers x y with
    | isTrue h => isTrue (congrArg obj h)
    | isFalse h => isFalse (fun e => h (obj.inj e))
/-- Equality of element lists is decidable. -/
def decEqList : (a b : List JSON) → Decidable (a = b)
  | [], [] => isTrue rfl
  | [], _ :: _ => isFalse (fun e => List.noConfusion e)
  | _ :: _, [] => isFalse (fun e => List.noConfusion e)
  | x :: xs, y :: ys =>
    match decEq x y, decEqList xs ys with
    | isTrue h1, isTrue h2 => isTrue (h1 ▸ h2 ▸ rfl)
    | isFalse h1, _ => isFalse (fun e => h1 (List.cons.inj e).1)
    | _, isFalse h2 => isFalse (fun e => h2 (List.cons.inj e).2)
/-- Equality of member lists is decidable. -/
def decEqMembers : (a b : List (String × JSON)) → Decidable (a = b)
  | [], [] => isTrue rfl
  | [], _ :: _ => isFalse (fun e => List.noConfusion e)
  | _ :: _, [] => isFalse (fun e => List.noConfusion e)
  | (k, x) :: xs, (l, y) :: ys =>
    if hk : k = l then
      match decEq x y, decEqMembers xs ys with
      | isTrue h1, isTrue h2 => isTrue (hk ▸ h1 ▸ h2 ▸ rfl)
      | isFalse h1, _ => isFalse (fun e => h1 (Prod.mk.inj (List.cons.inj e).1).2)
      | _, isFalse h2 => isFalse (fun e => h2 (List.cons.inj e).2)
    else isFalse (fun e => hk (Prod.mk.inj (List.cons.inj e).1).1)
end

instance : DecidableEq JSON := decEq

end JSON

open JSON

/-- A JavaScript value as this code meets it: `none` is `undefined`. -/
abbrev JSValue := Option JSON

/-- A thrown exception, identified by its `message`. -/
abbrev Thrown := String

/-- Results that are a value or a thrown exception compare by cases. -/
instance instDecidableEqExcept {ε α : Type} [DecidableEq ε] [DecidableEq α] :
    DecidableEq (Except ε α) := fun a b =>
  match a, b with
  | .ok x, .ok y => if h : x = y then isTrue (h ▸ rfl) else isFalse (fun e => h (Except.ok.inj e))
  | .error x, .error y =>
    if h : x = y then isTrue (h ▸ rfl) else isFalse (fun e => h (Except.error.inj e))
  | .ok _, .error _ => isFalse (fun e => nomatch e)
  | .error _, .ok _ => isFalse (fun e => nomatch e)

/-! ## JavaScript primitives used by the source -/

/-- ToBoolean: `null`, `false`, `0` and `""` are falsy, every array and object
is truthy. -/
def isTruthy : JSON → Bool
  | null => false
  | .bool b => b
  | num n => n != 0
  | str s => s != ""
  | arr _ => true
  | obj _ => true

/-- ToBoolean on a possibly `undefined` value. -/
def truthy : JSValue → Bool
  | none => false
  | some v => isTruthy v

/-- Own-property read on a member list; a later duplicate key wins, as in
`JSON.parse`. -/
def lookupMember (key : String) : List (String × JSON) → JSValue
  | [] => none
  | (k, v) :: rest =>
    match lookupMember key rest with
    | some w => some w
    | none => if k = key then some v else none

/-- `v.key` on a value that is not `null`, for a key that no prototype
defines (`category`, `liveUrl`, `title`, `description`, `id`, `modelAccuracy`,
`modelFeatures`, `data`): only objects have such a property. -/
def getProp (v : JSON) (key : String) : JSValue :=
  match v with
  | obj kvs => lookupMember key kvs
  | _ => none

/-- `v.key`: reading a property of `null` throws a TypeError. -/
def getField (v : JSON) (key : String) : Except Thrown JSValue :=
  match v with
  | null => .error ("Cannot read properties of null (reading " ++ key ++ ")")
  | w => .ok (getProp w key)

/-- Number of UTF-16 code units of a string (`s.length`). -/
def utf16Length (s : String) : Nat :=
  (s.data.map (fun c => if c.val ≥ 0x10000 then 2 else 1)).sum

/-- `v.length` on a truthy value. -/
def lengthOf : JSON → JSValue
  | arr xs => some (num xs.length)
  | str s => some (num (utf16Length s))
  | obj kvs => lookupMember "length" kvs
  | _ => none

/-- `a === b` for values of two separately parsed documents: primitives
compare by value, arrays and objects are distinct references. -/
def strictEq : JSValue → JSValue → Bool
  | none, none => true
  | some null, some null => true
  | some (.bool a), some (.bool b) => a == b
  | some (num a), some (num b) => a == b
  | some (str a), some (str b) => a == b
  | _, _ => false

/-- WhiteSpace and LineTerminator code points, the ones `trim` strips. -/
def isJsWhitespace (c : Char) : Bool :=
  let n := c.val.toNat
  n == 0x09 || n == 0x0A || n == 0x0B || n == 0x0C || n == 0x0D || n == 0x20 ||
  n == 0xA0 || n == 0x1680 || (0x2000 ≤ n && n ≤ 0x200A) || n == 0x2028 ||
  n == 0x2029 || n == 0x202F || n == 0x205F || n == 0x3000 || n == 0xFEFF

/-- `String.prototype.trim`. -/
def jsTrim (s : String) : String :=
  String.mk ((s.data.dropWhile isJsWhitespace).reverse.dropWhile isJsWhitespace).reverse

/-- Decimal digits of a natural number, most significant first; `fuel` bounds
the number of digits. -/
def natDigits : Nat → Nat → List Char → List Char
  | 0, _, acc => acc
  | fuel + 1, n, acc =>
    let acc1 := Char.ofNat (48 + n % 10) :: acc
    if n / 10 = 0 then acc1 else natDigits fuel (n / 10) acc1

/-- Decimal text of a natural number. -/
def natText (n : Nat) : List Char := natDigits (n + 1) n []

/-- Number::toString on an integer. -/
def intText : Int → List Char
  | Int.ofNat n => natText n
  | Int.negSucc n => '-' :: natText (n + 1)

mutual
/-- ToString, as applied by template literals and by `new URL(x)`. -/
def toJsString : JSON → String
  | null => "null"
  | .bool true => "true"
  | .bool false => "false"
  | num n => String.mk (intText n)
  | str s => s
  | arr xs => joinElements xs
  | obj _ => "[object Object]"
/-- `Array.prototype.join(",")`, where `null` elements print as empty. -/
def joinElements : List JSON → String
  | [] => ""
  | [x] => elementText x
  | x :: y :: rest => elementText x ++ "," ++ joinElements (y :: rest)
/-- Text of one element inside `join`. -/
def elementText : JSON → String
  | null => ""
  | .bool true => "true"
  | .bool false => "false"
  | num n => String.mk (intText n)
  | str s => s
  | arr xs => joinElements xs
  | obj _ => "[object Object]"
end

/-- ToString on a possibly `undefined` value. -/
def valueText : JSValue → String
  | none => "undefined"
  | some v => toJsString v

/-! ## Platform -/

/-- Icons imported from `lucide-react`. -/
inductive Icon where
  | Heart | Activity | TrendingUp | Plus | ArrowRight | UserSearch | Home | ShoppingCart
  deriving DecidableEq, Repr

/-- Runtime services the source calls. -/
structure Platform where
  /-- `JSON.stringify(v)` for a value that came from `JSON.parse`. -/
  jsonStringify : JSON → String
  /-- `JSON.parse(text)`; `none` when it throws. -/
  jsonParse : String → Option JSON
  /-- `new URL(text).pathname`; `none` when the constructor throws. -/
  urlPathname : String → Option String
  /-- `window.location.origin`, or `""` where `window` is undefined. -/
  origin : String
  /-- Text of `Math.round(Number(text))`. -/
  roundNumericText : String → String
  /-- Number::toString on an integer of magnitude 10^21 or more, which
  JavaScript prints in exponent form (`1e+21`). -/
  exponentText : Int → String
  /-- `process.env.NEXT_PUBLIC_API_PORTFOLIO_SERVER` as text. -/
  portfolioServer : String
  /-- `process.env.NEXT_PUBLIC_API_EXPRESS_SERVER` as text. -/
  expressServer : String
  /-- `process.env.NEXT_PUBLIC_API_PYTHON_ML_SERVER` as text. -/
  pythonMlServer : String

/-- `JSON.stringify(x)`: `undefined` for `undefined`. -/
def stringifyValue (pl : Platform) : JSValue → Option String
  | none => none
  | some v => some (pl.jsonStringify v)

/-- Number::toString on an integer: its decimal digits below 10^21, the
exponent form from there on. -/
def numberText (pl : Platform) (n : Int) : String :=
  if n.natAbs < 10 ^ 21 then String.mk (intText n) else pl.exponentText n

/-- Text of `Math.round(v)` inside a template literal. -/
def roundText (pl : Platform) : JSON → String
  | null => "0"
  | .bool true => "1"
  | .bool false => "0"
  | num n => numberText pl n
  | str s => pl.roundNumericText s
  | arr xs => pl.roundNumericText (toJsString (arr xs))
  | obj _ => "NaN"

/-! ## MLModelsHomepage.js -/

/-- One entry of `localModelConfig`. -/
structure ModelConfig where
  id : Int
  path : String
  icon : Icon
  color : String
  deriving DecidableEq, Repr

/-- Local static model configuration. -/
def localModelConfig : List ModelConfig :=
  [ { id := 1, path := "/medical-charge-prediction", icon := Icon.Activity,
      color := "from-purple-500 to-indigo-600" },
    { id := 2, path := "/heart-disease-prediction", icon := Icon.Heart,
      color := "from-red-500 to-pink-600" },
    { id := 3, path := "/customer-churn-prediction", icon := Icon.UserSearch,
      color := "from-yellow-500 to-orange-600" },
    { id := 4, path := "/house-price-estimator", icon := Icon.Home,
      color := "from-green-500 to-teal-600" },
    { id := 5, path := "/uplift-model", icon := Icon.ShoppingCart,
      color := "from-green-500 to-teal-600" } ]

/-- The source's `extractPath`: the pathname of `url`, or `url` itself when
the `URL` constructor throws. -/
def extractPath (pl : Platform) (url : JSValue) : JSValue :=
  match pl.urlPathname (valueText url) with
  | some pathname => some (str pathname)
  | none => url

/-- The source's `areArraysEqual`.  The two arguments never alias: one is
parsed from the cache, the other from the response. -/
def areArraysEqual (pl : Platform) (arr1 arr2 : JSValue) : Bool :=
  match arr1, arr2 with
  | some a1, some a2 =>
    if !isTruthy a1 || !isTruthy a2 then false
    else if !strictEq (lengthOf a1) (lengthOf a2) then false
    else pl.jsonStringify a1 == pl.jsonStringify a2
  | _, _ => false

/-- The key of the cache slot. -/
def cacheKey : String := "ml_models_cache"

/-- Browser storage as far as this page uses it: the text under `cacheKey`
(`none` when the key is absent), whether every access throws (storage
disabled) and whether `setItem` throws (quota exceeded). -/
structure Storage where
  slot : Option String
  denied : Bool
  full : Bool
  deriving DecidableEq, Repr

/-- The source's `loadCachedData`; `null` when there is no usable cache. -/
def loadCachedData (pl : Platform) (st : Storage) : JSON :=
  if st.denied then null
  else
    match st.slot with
    | none => null
    | some cached =>
      if cached != "" then
        match pl.jsonParse cached with
        | some v => v
        | none => null
      else null

/-- Text handed to `localStorage.setItem` by `saveCachedData(data)`. -/
def cacheText (pl : Platform) (data : JSValue) : String :=
  match stringifyValue pl data with
  | some text => text
  | none => "undefined"

/-- The source's `saveCachedData`: its return value and the storage after it. -/
def saveCachedData (pl : Platform) (st : Storage) (data : JSValue) : Bool × Storage :=
  if st.denied || st.full then (false, st)
  else (true, { st with slot := some (cacheText pl data) })

/-- A render-ready model card. -/
structure DisplayModel where
  name : JSValue
  description : JSValue
  path : String
  stats : String
  accuracy : String
  id : JSValue
  icon : Icon
  color : String
  fetched : JSON
  deriving DecidableEq, Repr

/-- The callback of `fetchedData.filter` in `processModels`. -/
def isMlProject (project : JSON) : Except Thrown Bool :=
  match getField project "category" with
  | .error e => .error e
  | .ok category =>
    if strictEq category (some (str "Machine Learning")) then
      let liveUrl := getProp project "liveUrl"
      if truthy liveUrl then
        match liveUrl with
        | some (str s) => .ok (jsTrim s != "")
        | _ => .error "project.liveUrl.trim is not a function"
      else .ok false
    else .ok false

/-- `Array.prototype.filter` with a callback that may throw. -/
def filterProjects : List JSON → Except Thrown (List JSON)
  | [] => .ok []
  | p :: rest =>
    match isMlProject p with
    | .error e => .error e
    | .ok keep =>
      match filterProjects rest with
      | .error e => .error e
      | .ok kept => .ok (if keep then p :: kept else kept)

/-- `a || b`. -/
def jsOr (a b : JSValue) : JSValue := if truthy a then a else b

/-- The callback of `mlProjects.map` in `processModels`. -/
def mergeModel (pl : Platform) (fetchedModel : JSON) : Except Thrown DisplayModel :=
  match getField fetchedModel "liveUrl" with
  | .error e => .error e
  | .ok liveUrl =>
    let modelPath := extractPath pl liveUrl
    let config := localModelConfig.find? (fun c => strictEq (some (str c.path)) modelPath)
    let modelAccuracy := getProp fetchedModel "modelAccuracy"
    let accuracyValue :=
      match modelAccuracy with
      | some v => if isTruthy v then roundText pl v ++ "% Accuracy" else "N/A"
      | none => "N/A"
    let modelFeatures := getProp fetchedModel "modelFeatures"
    let featuresValue :=
      match modelFeatures with
      | some v => if isTruthy v then roundText pl v ++ " Features" else "N/A"
      | none => "N/A"
    let baseUrl := pl.origin
    let fullFrontendPath := baseUrl ++ valueText modelPath
    .ok { name := getProp fetchedModel "title"
          description := getProp fetchedModel "description"
          path := fullFrontendPath
          stats := featuresValue
          accuracy := accuracyValue
          id := jsOr (config.map (fun c => num c.id)) (getProp fetchedModel "id")
          icon := match config with
            | some c => c.icon
            | none => Icon.Plus
          color := match config with
            | some c => if c.color != "" then c.color else "from-gray-500 to-gray-600"
            | none => "from-gray-500 to-gray-600"
          fetched := fetchedModel }

/-- `Array.prototype.map` with a callback that may throw. -/
def mapModels (pl : Platform) : List JSON → Except Thrown (List DisplayModel)
  | [] => .ok []
  | p :: rest =>
    match mergeModel pl p with
    | .error e => .error e
    | .ok m =>
      match mapModels pl rest with
      | .error e => .error e
      | .ok ms => .ok (m :: ms)

/-- The source's `processModels`. -/
def processModels (pl : Platform) (fetchedData : JSValue) : Except Thrown (List DisplayModel) :=
  match fetchedData with
  | some (arr projects) =>
    match filterProjects projects with
    | .error e => .error e
    | .ok mlProjects => mapModels pl mlProjects
  | _ => .error "fetchedData.filter is not a function"

/-- What the page does that can be seen from outside, in order: a state
setter is called, `fetch(url)` is called, the statement
`localStorage.setItem(key, value)` is reached (the storage says whether it
took effect), the page is reloaded.  Console output is not recorded. -/
inductive Event where
  | setIsLoading (b : Bool)
  | setModels (ms : List DisplayModel)
  | fetch (url : String)
  | setItem (key : String) (value : String)
  | reload
  deriving DecidableEq, Repr

/-- Outcome of one `fetch(url)` followed by `response.json()`. -/
inductive Upstream where
  | networkError (message : Thrown)
  | response (status : Nat) (body : Except Thrown JSON)

/-- The `try` block of `fetchAndMergeModels` so far: the events it produced,
the storage it left and the exception that ended it, if one did. -/
structure TryOutcome where
  events : List Event
  storage : Storage
  thrown : Option Thrown

/-- The address `fetchAndMergeModels` fetches. -/
def catalogUrl (pl : Platform) : String := pl.portfolioServer ++ "/project/projects_data"

/-- Step 3 of the `try` block of `fetchAndMergeModels`, once `Data.data` is
read: compare with the cache, or fill it. -/
def compareWithCache (pl : Platform) (st : Storage) (cachedData : JSON) (fetchedData : JSValue)
    (before : List Event) : TryOutcome :=
  if isTruthy cachedData then
    let hasChanges := !areArraysEqual pl (some cachedData) fetchedData
    if hasChanges then
      { events := before ++ [Event.setItem cacheKey (cacheText pl fetchedData), Event.reload]
        storage := (saveCachedData pl st fetchedData).2
        thrown := none }
    else
      { events := before, storage := st, thrown := none }
  else
    let saved := before ++ [Event.setItem cacheKey (cacheText pl fetchedData)]
    let st1 := (saveCachedData pl st fetchedData).2
    match processModels pl fetchedData with
    | .ok processedModels =>
      { events := saved ++ [Event.setModels processedModels], storage := st1, thrown := none }
    | .error e => { events := saved, storage := st1, thrown := some e }

/-- Step 2 of the `try` block: fetch, decode, read `Data.data`. -/
def fetchFresh (pl : Platform) (st : Storage) (cachedData : JSON) (upstream : Upstream)
    (before : List Event) : TryOutcome :=
  let fetched := before ++ [Event.fetch (catalogUrl pl)]
  match upstream with
  | .networkError e => { events := fetched, storage := st, thrown := some e }
  | .response _ (.error e) => { events := fetched, storage := st, thrown := some e }
  | .response _ (.ok Data) =>
    match getField Data "data" with
    | .error e => { events := fetched, storage := st, thrown := some e }
    | .ok fetchedData => compareWithCache pl st cachedData fetchedData fetched

/-- The `try` block of `fetchAndMergeModels`. -/
def tryBlock (pl : Platform) (st : Storage) (upstream : Upstream) : TryOutcome :=
  let cachedData := loadCachedData pl st
  if isTruthy cachedData then
    match processModels pl (some cachedData) with
    | .error e => { events := [], storage := st, thrown := some e }
    | .ok processedModels =>
      fetchFresh pl st cachedData upstream
        [Event.setModels processedModels, Event.setIsLoading false]
  else fetchFresh pl st cachedData upstream []

/-- One run of the page effect: its events and the storage after it. -/
structure Run where
  events : List Event
  storage : Storage

/-- The source's `fetchAndMergeModels`: `try` block, `catch`, `finally`. -/
def fetchAndMergeModels (pl : Platform) (st : Storage) (upstream : Upstream) : Run :=
  let t := tryBlock pl st upstream
  let caught :=
    match t.thrown with
    | some _ => [Event.setModels []]
    | none => []
  { events := [Event.setIsLoading true] ++ t.events ++ caught ++ [Event.setIsLoading false]
    storage := t.storage }

/-- Number of `fetch` calls among the events. -/
def fetchCount : List Event → Nat
  | [] => 0
  | Event.fetch _ :: rest => fetchCount rest + 1
  | _ :: rest => fetchCount rest

/-- Number of `window.location.reload()` calls among the events. -/
def reloadCount : List Event → Nat
  | [] => 0
  | Event.reload :: rest => reloadCount rest + 1
  | _ :: rest => reloadCount rest

/-- The `localStorage.setItem` calls among the events, in order. -/
def storageWrites : List Event → List (String × String)
  | [] => []
  | Event.setItem k v :: rest => (k, v) :: storageWrites rest
  | _ :: rest => storageWrites rest

/-- The arguments of the `setModels` calls among the events, in order. -/
def modelUpdates : List Event → List (List DisplayModel)
  | [] => []
  | Event.setModels ms :: rest => ms :: modelUpdates rest
  | _ :: rest => modelUpdates rest

/-- The model list on display after the events; it starts as `[]`
(`useState([])`). -/
def displayedModels (events : List Event) : List DisplayModel :=
  (modelUpdates events).getLast?.getD []

/-! ## Proxy routes -/

/-- An HTTP response of a route: status and body text. -/
structure HttpResponse where
  status : Nat
  body : String
  deriving DecidableEq, Repr

/-- `response.ok`: the status is in 200..299. -/
def responseOk (status : Nat) : Bool := 200 ≤ status && status ≤ 299

/-- The body `{ error: message }`. -/
def errorBody (message : String) : JSON := obj [("error", str message)]

/-- The body `{ success: false, error: message }`. -/
def failureBody (message : String) : JSON :=
  obj [("success", JSON.bool false), ("error", str message)]

namespace Projects

/-- The address `projects/route.js` fetches. -/
def upstreamUrl (pl : Platform) : String := pl.expressServer ++ "/api/projects_data"

/-- The `GET` of `api/projects/route.js`; `net` answers a fetch of an address. -/
def GET (pl : Platform) (net : String → Upstream) : HttpResponse :=
  match net (upstreamUrl pl) with
  | .networkError e => { status := 500, body := pl.jsonStringify (errorBody e) }
  | .response status body =>
    if !responseOk status then
      { status := 500
        body := pl.jsonStringify
          (errorBody ("Python server error: " ++ String.mk (natText status))) }
    else
      match body with
      | .error e => { status := 500, body := pl.jsonStringify (errorBody e) }
      | .ok data => { status := 200, body := pl.jsonStringify data }

end Projects

namespace HealthCheck

/-- The address `health_check/route.js` fetches. -/
def upstreamUrl (pl : Platform) : String := pl.pythonMlServer ++ "/health"

/-- The `GET` of `api/health_check/route.js`; `net` answers a fetch of an
address. -/
def GET (pl : Platform) (net : String → Upstream) : HttpResponse :=
  match net (upstreamUrl pl) with
  | .networkError e => { status := 500, body := pl.jsonStringify (errorBody e) }
  | .response status body =>
    if !responseOk status then
      { status := 500
        body := pl.jsonStringify
          (errorBody ("Python server error: " ++ String.mk (natText status))) }
    else
      match body with
      | .error e => { status := 500, body := pl.jsonStringify (errorBody e) }
      | .ok data => { status := 200, body := pl.jsonStringify data }

end HealthCheck

namespace HeartDisease

/-- The address `heart_disease/route.js` posts to. -/
def upstreamUrl (pl : Platform) : String := pl.pythonMlServer ++ "/heart-disease/predict"

/-- The `POST` of `api/heart_disease/route.js`: `req` is the outcome of
`req.json()`, `net` answers a post of a body text to an address. -/
def POST (pl : Platform) (req : Except Thrown JSON) (net : String → String → Upstream) :
    HttpResponse :=
  match req with
  | .error e => { status := 500, body := pl.jsonStringify (failureBody e) }
  | .ok formData =>
    match net (upstreamUrl pl) (pl.jsonStringify formData) with
    | .networkError e => { status := 500, body := pl.jsonStringify (failureBody e) }
    | .response _ (.error e) => { status := 500, body := pl.jsonStringify (failureBody e) }
    | .response _ (.ok data) => { status := 200, body := pl.jsonStringify data }

end HeartDisease

/-! ## Reference platform

A concrete platform: `JSON.stringify` without indentation, a `JSON.parse` for
the JSON grammar over the integer numbers, and the pathname of plain
`http:` and `https:` addresses. -/

namespace Ref

/-- Lower-case hexadecimal digit. -/
def hexDigit (n : Nat) : Char := if n < 10 then Char.ofNat (48 + n) else Char.ofNat (87 + n)

/-- QuoteJSONString on one code point. -/
def escapeChar (c : Char) : List Char :=
  if c = '"' then ['\\', '"']
  else if c = '\\' then ['\\', '\\']
  else if c = '\x08' then ['\\', 'b']
  else if c = '\x0c' then ['\\', 'f']
  else if c = '\n' then ['\\', 'n']
  else if c = '\r' then ['\\', 'r']
  else if c = '\t' then ['\\', 't']
  else if c.toNat < 32 then ['\\', 'u', '0', '0', hexDigit (c.toNat / 16), hexDigit (c.toNat % 16)]
  else [c]

/-- The characters of a string with every code point escaped as needed. -/
def escapeChars : List Char → List Char
  | [] => []
  | c :: cs => escapeChar c ++ escapeChars cs

/-- QuoteJSONString. -/
def quote (s : String) : List Char := '"' :: (escapeChars s.data ++ ['"'])

mutual
/-- SerializeJSONProperty without gap. -/
def serialize : JSON → List Char
  | .null => ['n', 'u', 'l', 'l']
  | .bool true => ['t', 'r', 'u', 'e']
  | .bool false => ['f', 'a', 'l', 's', 'e']
  | .num n => intText n
  | .str s => quote s
  | .arr [] => ['[', ']']
  | .arr (x :: xs) => '[' :: (serialize x ++ serializeElements xs)
  | .obj [] => ['\x7b', '\x7d']
  | .obj ((k, v) :: kvs) => '\x7b' :: (quote k ++ ':' :: (serialize v ++ serializeMembers kvs))
/-- The elements after the first, each led by a comma, then the closing bracket. -/
def serializeElements : List JSON → List Char
  | [] => [']']
  | x :: xs => ',' :: (serialize x ++ serializeElements xs)
/-- The members after the first, each led by a comma, then the closing brace. -/
def serializeMembers : List (String × JSON) → List Char
  | [] => ['\x7d']
  | (k, v) :: kvs => ',' :: (quote k ++ ':' :: (serialize v ++ serializeMembers kvs))
end

/-- `JSON.stringify` of the reference platform. -/
def stringify (v : JSON) : String := String.mk (serialize v)

/-- JSON whitespace. -/
def isWs (c : Char) : Bool := c = ' ' || c = '\t' || c = '\n' || c = '\r'

/-- Drop leading JSON whitespace. -/
def skipWs : List Char → List Char
  | [] => []
  | c :: cs => if isWs c then skipWs cs else c :: cs

/-- Value of a hexadecimal digit. -/
def hexValue (c : Char) : Option Nat :=
  let n := c.toNat
  if 48 ≤ n ∧ n ≤ 57 then some (n - 48)
  else if 97 ≤ n ∧ n ≤ 102 then some (n - 87)
  else if 65 ≤ n ∧ n ≤ 70 then some (n - 55)
  else none

/-- The code point of `\uXXXX`; surrogate halves are not representable and
make the text unreadable here. -/
def unicodeEscape (a b c d : Char) : Option Char :=
  match hexValue a, hexValue b, hexValue c, hexValue d with
  | some x, some y, some z, some w =>
    let n := ((x * 16 + y) * 16 + z) * 16 + w
    if 0xD800 ≤ n ∧ n ≤ 0xDFFF then none else some (Char.ofNat n)
  | _, _, _, _ => none

/-- The character a one-letter escape stands for. -/
def unescape (e : Char) : Option Char :=
  if e = '"' then some '"'
  else if e = '\\' then some '\\'
  else if e = '/' then some '/'
  else if e = 'b' then some '\x08'
  else if e = 'f' then some '\x0c'
  else if e = 'n' then some '\n'
  else if e = 'r' then some '\r'
  else if e = 't' then some '\t'
  else none

/-- The rest of a string literal after its opening quote: the decoded text
and what follows the closing quote. -/
def parseString : List Char → List Char → Option (String × List Char)
  | [], _ => none
  | c :: rest, acc =>
    if c = '"' then some (String.mk acc.reverse, rest)
    else if c = '\\' then
      match rest with
      | [] => none
      | e :: rest1 =>
        if e = 'u' then
          match rest1 with
          | h1 :: h2 :: h3 :: h4 :: rest2 =>
            match unicodeEscape h1 h2 h3 h4 with
            | some ch => parseString rest2 (ch :: acc)
            | none => none
          | _ => none
        else
          match unescape e with
          | some ch => parseString rest1 (ch :: acc)
          | none => none
    else if c.toNat < 32 then none
    else parseString rest (c :: acc)

/-- Decimal digit test. -/
def isDigit (c : Char) : Bool := 48 ≤ c.toNat && c.toNat ≤ 57

/-- Leading decimal digits read as a number, and the rest. -/
def readDigits : List Char → Nat → Nat × List Char
  | [], n => (n, [])
  | c :: cs, n => if isDigit c then readDigits cs (n * 10 + (c.toNat - 48)) else (n, c :: cs)

/-- An unsigned JSON integer: no leading zero, no fraction, no exponent. -/
def parseNat : List Char → Option (Nat × List Char)
  | [] => none
  | c :: cs =>
    if isDigit c then
      let r := readDigits (c :: cs) 0
      if c = '0' ∧ (cs.head?.map isDigit = some true) then none
      else if r.2.head? = some '.' ∨ r.2.head? = some 'e' ∨ r.2.head? = some 'E' then none
      else some r
    else none

/-- A JSON integer. -/
def parseInt : List Char → Option (JSON × List Char)
  | [] => none
  | c :: cs =>
    if c = '-' then (parseNat cs).map (fun r => (JSON.num (-(r.1 : Int)), r.2))
    else (parseNat (c :: cs)).map (fun r => (JSON.num (r.1 : Int), r.2))

/-- The text after a given word, when the text starts with it. -/
def dropWord : List Char → List Char → Option (List Char)
  | [], cs => some cs
  | _ :: _, [] => none
  | w :: ws, c :: cs => if w = c then dropWord ws cs else none

mutual
/-- A JSON value and the text after it. -/
def parseValue : Nat → List Char → Option (JSON × List Char)
  | 0, _ => none
  | fuel + 1, cs =>
    match skipWs cs with
    | [] => none
    | c :: rest =>
      if c = 'n' then (dropWord ['u', 'l', 'l'] rest).map (fun r => (JSON.null, r))
      else if c = 't' then (dropWord ['r', 'u', 'e'] rest).map (fun r => (JSON.bool true, r))
      else if c = 'f' then
        (dropWord ['a', 'l', 's', 'e'] rest).map (fun r => (JSON.bool false, r))
      else if c = '"' then (parseString rest []).map (fun r => (JSON.str r.1, r.2))
      else if c = '[' then
        if (skipWs rest).head? = some ']' then some (JSON.arr [], (skipWs rest).tail)
        else (parseElements fuel rest).map (fun r => (JSON.arr r.1, r.2))
      else if c = '\x7b' then
        if (skipWs rest).head? = some '\x7d' then some (JSON.obj [], (skipWs rest).tail)
        else (parseMembers fuel rest).map (fun r => (JSON.obj r.1, r.2))
      else parseInt (c :: rest)
/-- The elements of a non-empty array up to its closing bracket. -/
def parseElements : Nat → List Char → Option (List JSON × List Char)
  | 0, _ => none
  | fuel + 1, cs =>
    match parseValue fuel cs with
    | none => none
    | some (v, rest) =>
      match skipWs rest with
      | [] => none
      | c :: rest1 =>
        if c = ',' then (parseElements fuel rest1).map (fun r => (v :: r.1, r.2))
        else if c = ']' then some ([v], rest1)
        else none
/-- The members of a non-empty object up to its closing brace. -/
def parseMembers : Nat → List Char → Option (List (String × JSON) × List Char)
  | 0, _ => none
  | fuel + 1, cs =>
    match skipWs cs with
    | [] => none
    | q :: rest =>
      if q = '"' then
        match parseString rest [] with
        | none => none
        | some (key, rest1) =>
          match skipWs rest1 with
          | [] => none
          | colon :: rest2 =>
            if colon = ':' then
              match parseValue fuel rest2 with
              | none => none
              | some (v, rest3) =>
                match skipWs rest3 with
                | [] => none
                | c :: rest4 =>
                  if c = ',' then
                    (parseMembers fuel rest4).map (fun r => ((key, v) :: r.1, r.2))
                  else if c = '\x7d' then some ([(key, v)], rest4)
                  else none
            else none
      else none
end

/-- `JSON.parse` of the reference platform. -/
def parse (text : String) : Option JSON :=
  match parseValue (text.data.length + 1) text.data with
  | some (v, rest) => if skipWs rest = [] then some v else none
  | none => none

/-- A text after a value inside a serialization: empty, or led by a comma or a
closing bracket or brace. -/
def Closes (rest : List Char) : Prop :=
  ∀ c, rest.head? = some c → c = ',' ∨ c = ']' ∨ c = '\x7d'

mutual
/-- Fuel that `parseValue` needs to read a value back: one per value and one
per element or member. -/
def weight : JSON → Nat
  | .null => 1
  | .bool _ => 1
  | .num _ => 1
  | .str _ => 1
  | .arr xs => weightElements xs + 1
  | .obj kvs => weightMembers kvs + 1
/-- Fuel for the elements of an array. -/
def weightElements : List JSON → Nat
  | [] => 0
  | x :: xs => weight x + 1 + weightElements xs
/-- Fuel for the members of an object. -/
def weightMembers : List (String × JSON) → Nat
  | [] => 0
  | (_, v) :: kvs => weight v + 1 + weightMembers kvs
end

/-- Whether a character ends the host or the path of an address. -/
def endsPart (c : Char) : Bool := c = '/' || c = '?' || c = '#'

/-- Pathname of the text after `scheme://`: a non-empty host, then the path
up to `?` or `#`, `/` when empty. -/
def pathAfterScheme (rest : List Char) : Option String :=
  let host := rest.takeWhile (fun c => !endsPart c)
  let after := rest.dropWhile (fun c => !endsPart c)
  let path := after.takeWhile (fun c => !(c = '?' || c = '#'))
  if host = [] then none
  else if path = [] then some "/"
  else some (String.mk path)

/-- Pathname of an absolute `http:` or `https:` address; every other text is
rejected, as a text without a scheme is by the `URL` constructor. -/
def urlPathname (text : String) : Option String :=
  match text.data with
  | 'h' :: 't' :: 't' :: 'p' :: ':' :: '/' :: '/' :: rest => pathAfterScheme rest
  | 'h' :: 't' :: 't' :: 'p' :: 's' :: ':' :: '/' :: '/' :: rest => pathAfterScheme rest
  | _ => none

/-- Rounded value of a numeric text: plain integers print as they are,
anything else is taken as not a number. -/
def roundNumericText (text : String) : String :=
  match parseInt (jsTrim text).data with
  | some (JSON.num n, []) => String.mk (intText n)
  | _ => "NaN"

/-- The digits of a text without its trailing zeros. -/
def dropTrailingZeros (ds : List Char) : List Char :=
  (ds.reverse.dropWhile (fun c => c = '0')).reverse

/-- Exponent form of an integer from its exact digits: `1e+21`, `-1.5e+22`. -/
def exponentText (n : Int) : String :=
  let ds := natText n.natAbs
  let sign := if n < 0 then ['-'] else []
  let exponent := 'e' :: '+' :: natText (ds.length - 1)
  match dropTrailingZeros ds with
  | [] => String.mk (sign ++ '0' :: exponent)
  | [d] => String.mk (sign ++ d :: exponent)
  | d :: rest => String.mk (sign ++ d :: '.' :: (rest ++ exponent))

/-- The reference platform. -/
def platform : Platform where
  jsonStringify := stringify
  jsonParse := parse
  urlPathname := urlPathname
  origin := "https://models.example"
  roundNumericText := roundNumericText
  exponentText := exponentText
  portfolioServer := "https://portfolio.example"
  expressServer := "https://express.example"
  pythonMlServer := "https://ml.example"

end Ref

/-! ## Notions used in the statements -/

/-- The projects the filter of `processModels` keeps: category exactly
"Machine Learning" and a `liveUrl` string that `trim` does not empty. -/
def Displayable (p : JSON) : Prop :=
  getProp p "category" = some (str "Machine Learning") ∧
    ∃ s, getProp p "liveUrl" = some (str s) ∧ jsTrim s ≠ ""

/-- The entry of `localModelConfig` that `processModels` joins to a path. -/
def configFor (modelPath : JSValue) : Option ModelConfig :=
  localModelConfig.find? (fun c => strictEq (some (str c.path)) modelPath)

/-- A catalog entry as the data model has it: an object whose `liveUrl` is
absent, `null` or a string. -/
def isProjectRecord : JSON → Bool
  | obj kvs =>
    match lookupMember "liveUrl" kvs with
    | none => true
    | some null => true
    | some (str _) => true
    | some _ => false
  | _ => false

/-- The JSON contract of the platform at one value: `JSON.stringify` gives a
non-empty text and `JSON.parse` reads that text back as the value. -/
def RoundTrips (pl : Platform) (v : JSON) : Prop :=
  pl.jsonStringify v ≠ "" ∧ pl.jsonParse (pl.jsonStringify v) = some v

/-- Number of fetches one run issues, read off the cache: none when the
cached value is truthy and `processModels` throws on it, one otherwise. -/
def expectedFetches (pl : Platform) (st : Storage) : Nat :=
  if isTruthy (loadCachedData pl st) then
    match processModels pl (some (loadCachedData pl st)) with
    | .ok _ => 1
    | .error _ => 0
  else 1

/-! ## Sample data -/

namespace Sample

/-- The project of the end-to-end scenario. -/
def heart : JSON :=
  obj [("id", num 1), ("category", str "Machine Learning"),
    ("liveUrl", str "https://x/heart-disease-prediction"), ("title", str "Heart"),
    ("modelAccuracy", num 92), ("modelFeatures", num 8)]

/-- The card `processModels` builds for `heart` on the reference platform. -/
def heartCard : DisplayModel :=
  { name := some (str "Heart"), description := none
    path := "https://models.example/heart-disease-prediction"
    stats := "8 Features", accuracy := "92% Accuracy", id := some (num 2)
    icon := Icon.Heart, color := "from-red-500 to-pink-600", fetched := heart }

/-- A Machine Learning project whose `liveUrl` is a bare path, which the
`URL` constructor rejects. -/
def barePath : JSON :=
  obj [("id", num 9), ("category", str "Machine Learning"),
    ("liveUrl", str "/heart-disease-prediction"), ("title", str "Relative")]

/-- The card `processModels` builds for `barePath` on the reference platform. -/
def barePathCard : DisplayModel :=
  { name := some (str "Relative"), description := none
    path := "https://models.example/heart-disease-prediction"
    stats := "N/A", accuracy := "N/A", id := some (num 2)
    icon := Icon.Heart, color := "from-red-500 to-pink-600", fetched := barePath }

/-- A Machine Learning project whose path is in no configuration entry. -/
def churnV2 : JSON :=
  obj [("id", num 11), ("category", str "Machine Learning"),
    ("liveUrl", str "https://x/churn-v2"), ("title", str "Churn")]

/-- The card `processModels` builds for `churnV2` on the reference platform. -/
def churnCard : DisplayModel :=
  { name := some (str "Churn"), description := none
    path := "https://models.example/churn-v2"
    stats := "N/A", accuracy := "N/A", id := some (num 11)
    icon := Icon.Plus, color := "from-gray-500 to-gray-600", fetched := churnV2 }

/-- A project of another category. -/
def blog : JSON :=
  obj [("id", num 7), ("category", str "Web"), ("liveUrl", str "https://x/blog")]

/-- A Machine Learning project with a blank `liveUrl`. -/
def blank : JSON :=
  obj [("id", num 8), ("category", str "Machine Learning"), ("liveUrl", str "  ")]

/-- Working storage with no cache. -/
def noCache : Storage := { slot := none, denied := false, full := false }

/-- Working storage whose slot holds a text. -/
def cached (text : String) : Storage := { slot := some text, denied := false, full := false }

/-- A response `{ data: projects }` with status 200. -/
def catalog (projects : List JSON) : Upstream :=
  Upstream.response 200 (.ok (obj [("data", arr projects)]))

/-- A response whose `data` is not a project list. -/
def outage : Upstream :=
  Upstream.response 200 (.ok (obj [("data", obj [("message", str "down")])]))

end Sample

/-! ## Lemmas on `processModels` -/

theorem strictEq_str_left (a : String) (x : JSValue) :
    strictEq (some (str a)) x = true ↔ x = some (str a) := by
  cases x with
  | none => simp [strictEq]
  | some v =>
    cases v <;> simp [strictEq]
    exact eq_comm

theorem dropWhile_eq_nil_iff_all (l : List Char) :
    l.dropWhile isJsWhitespace = [] ↔ l.all isJsWhitespace = true := by
  induction l with
  | nil => simp
  | cons c cs ih =>
    by_cases h : isJsWhitespace c = true
    · simp [List.dropWhile, h, ih]
    · simp [List.dropWhile, h]

theorem jsTrim_eq_empty_iff (s : String) :
    jsTrim s = "" ↔ s.data.all isJsWhitespace = true := by
  unfold jsTrim
  rw [← dropWhile_eq_nil_iff_all]
  constructor
  · intro h
    have h1 := congrArg String.data h
    simp only [List.reverse_eq_nil_iff] at h1
    change List.dropWhile isJsWhitespace (List.dropWhile isJsWhitespace s.data).reverse = [] at h1
    rw [dropWhile_eq_nil_iff_all] at h1
    by_contra hne
    obtain ⟨c, cs, hc⟩ := List.exists_cons_of_ne_nil hne
    have hmem : c ∈ (List.dropWhile isJsWhitespace s.data).reverse := by
      rw [List.mem_reverse, hc]; simp
    have hws : isJsWhitespace c = true := (List.all_eq_true.mp h1) c hmem
    have := List.head_dropWhile_not isJsWhitespace s.data hne
    simp [hc, hws] at this
  · intro h
    simp [h]


theorem strictEq_str_right (a : String) (x : JSValue) :
    strictEq x (some (str a)) = true ↔ x = some (str a) := by
  cases x with
  | none => simp [strictEq]
  | some v => cases v <;> simp [strictEq]

theorem isMlProject_true_iff (p : JSON) : isMlProject p = .ok true ↔ Displayable p := by
  unfold Displayable isMlProject
  cases p with
  | null => simp [getField, getProp]
  | bool b => simp [getField, getProp, strictEq]
  | num n => simp [getField, getProp, strictEq]
  | str s => simp [getField, getProp, strictEq]
  | arr xs => simp [getField, getProp, strictEq]
  | obj kvs =>
    simp only [getField, getProp]
    by_cases hc : lookupMember "category" kvs = some (str "Machine Learning")
    · simp only [hc, (strictEq_str_right "Machine Learning" _).mpr, if_true, true_and]
      cases hl : lookupMember "liveUrl" kvs with
      | none => simp [truthy]
      | some v =>
        cases v <;> simp [truthy, isTruthy]
        · split <;> simp
        · split <;> simp
        · split
          · next h => subst h; simp [show jsTrim "" = "" from rfl]
          · simp
    · have : strictEq (lookupMember "category" kvs) (some (str "Machine Learning")) = false := by
        rw [← Bool.not_eq_true, strictEq_str_right]; exact hc
      simp [this, hc]


theorem filterProjects_mem (ps kept : List JSON) (h : filterProjects ps = .ok kept) (p : JSON) :
    p ∈ kept ↔ p ∈ ps ∧ Displayable p := by
  induction ps generalizing kept with
  | nil =>
    simp only [filterProjects, Except.ok.injEq] at h
    subst h
    simp
  | cons q rest ih =>
    simp only [filterProjects] at h
    cases hq : isMlProject q with
    | error e => simp [hq] at h
    | ok keep =>
      cases hr : filterProjects rest with
      | error e => simp [hq, hr] at h
      | ok kept1 =>
        simp only [hq, hr, Except.ok.injEq] at h
        subst h
        have ih1 := ih kept1 hr
        cases keep with
        | true =>
          have hd : Displayable q := (isMlProject_true_iff q).mp hq
          simp only [if_true, List.mem_cons, ih1]
          constructor
          · rintro (rfl | h1)
            · exact ⟨Or.inl rfl, hd⟩
            · exact ⟨Or.inr h1.1, h1.2⟩
          · rintro ⟨rfl | h1, h2⟩
            · exact Or.inl rfl
            · exact Or.inr ⟨h1, h2⟩
        | false =>
          have hd : ¬ Displayable q := fun hd => by
            have := (isMlProject_true_iff q).mpr hd
            rw [hq] at this
            cases this
          simp only [Bool.false_eq_true, if_false, ih1, List.mem_cons]
          constructor
          · rintro ⟨h1, h2⟩
            exact ⟨Or.inr h1, h2⟩
          · rintro ⟨rfl | h1, h2⟩
            · exact absurd h2 hd
            · exact ⟨h1, h2⟩

theorem mapModels_mem (pl : Platform) (kept : List JSON) (ms : List DisplayModel)
    (h : mapModels pl kept = .ok ms) :
    (∀ m ∈ ms, ∃ p ∈ kept, mergeModel pl p = .ok m) ∧
      (∀ p ∈ kept, ∃ m ∈ ms, mergeModel pl p = .ok m) := by
  induction kept generalizing ms with
  | nil =>
    simp only [mapModels, Except.ok.injEq] at h
    subst h
    simp
  | cons q rest ih =>
    simp only [mapModels] at h
    cases hq : mergeModel pl q with
    | error e => simp [hq] at h
    | ok m0 =>
      cases hr : mapModels pl rest with
      | error e => simp [hq, hr] at h
      | ok ms1 =>
        simp only [hq, hr, Except.ok.injEq] at h
        subst h
        obtain ⟨ih1, ih2⟩ := ih ms1 hr
        constructor
        · intro m hm
          rcases List.mem_cons.mp hm with rfl | hm1
          · exact ⟨q, List.mem_cons_self _ _, hq⟩
          · obtain ⟨p, hp, hpm⟩ := ih1 m hm1
            exact ⟨p, List.mem_cons_of_mem _ hp, hpm⟩
        · intro p hp
          rcases List.mem_cons.mp hp with rfl | hp1
          · exact ⟨m0, List.mem_cons_self _ _, hq⟩
          · obtain ⟨m, hm, hpm⟩ := ih2 p hp1
            exact ⟨m, List.mem_cons_of_mem _ hm, hpm⟩

theorem mergeModel_ok_of_ne_null (pl : Platform) (p : JSON) (h : p ≠ null) :
    ∃ m, mergeModel pl p = .ok m := by
  cases p <;> first | exact absurd rfl h | exact ⟨_, rfl⟩

theorem mapModels_ok (pl : Platform) (kept : List JSON) (h : ∀ p ∈ kept, p ≠ null) :
    ∃ ms, mapModels pl kept = .ok ms := by
  induction kept with
  | nil => exact ⟨[], rfl⟩
  | cons q rest ih =>
    obtain ⟨m, hm⟩ := mergeModel_ok_of_ne_null pl q (h q (List.mem_cons_self _ _))
    obtain ⟨ms, hms⟩ := ih (fun p hp => h p (List.mem_cons_of_mem _ hp))
    exact ⟨m :: ms, by simp [mapModels, hm, hms]⟩

theorem Displayable.ne_null {p : JSON} (h : Displayable p) : p ≠ null := by
  rintro rfl
  simp [Displayable, getProp] at h

/-- The filter step decides whether `processModels` returns. -/
theorem processModels_ok_iff (pl : Platform) (ps : List JSON) :
    (∃ ms, processModels pl (some (arr ps)) = .ok ms) ↔ ∃ kept, filterProjects ps = .ok kept := by
  unfold processModels
  constructor
  · rintro ⟨ms, h⟩
    cases hf : filterProjects ps with
    | error e => simp [hf] at h
    | ok kept => exact ⟨kept, rfl⟩
  · rintro ⟨kept, hf⟩
    obtain ⟨ms, hms⟩ := mapModels_ok pl kept
      (fun p hp => ((filterProjects_mem ps kept hf p).mp hp).2.ne_null)
    exact ⟨ms, by simp [hf, hms]⟩



theorem mergeModel_fields (pl : Platform) (p : JSON) (m : DisplayModel)
    (h : mergeModel pl p = .ok m) :
    m.fetched = p ∧ m.name = getProp p "title" ∧
      m.path = pl.origin ++ valueText (extractPath pl (getProp p "liveUrl")) ∧
      m.id = jsOr ((configFor (extractPath pl (getProp p "liveUrl"))).map (fun c => num c.id))
        (getProp p "id") ∧
      m.icon = (match configFor (extractPath pl (getProp p "liveUrl")) with
        | some c => c.icon
        | none => Icon.Plus) ∧
      m.color = (match configFor (extractPath pl (getProp p "liveUrl")) with
        | some c => if c.color != "" then c.color else "from-gray-500 to-gray-600"
        | none => "from-gray-500 to-gray-600") := by
  cases p with
  | null => cases h
  | _ =>
    simp only [mergeModel, getField, Except.ok.injEq] at h
    subst h
    exact ⟨rfl, rfl, rfl, rfl, rfl, rfl⟩

theorem configFor_of_mem (c : ModelConfig) (hc : c ∈ localModelConfig) :
    configFor (some (str c.path)) = some c := by
  simp only [localModelConfig, List.mem_cons, List.mem_singleton, List.not_mem_nil, or_false] at hc
  rcases hc with rfl | rfl | rfl | rfl | rfl <;> decide

theorem configFor_eq_none (x : JSValue)
    (h : ∀ c ∈ localModelConfig, x ≠ some (str c.path)) : configFor x = none := by
  unfold configFor
  rw [List.find?_eq_none]
  intro c hc
  rw [strictEq_str_left]
  exact h c hc

theorem config_id_truthy (c : ModelConfig) (hc : c ∈ localModelConfig) :
    truthy (some (num c.id)) = true ∧ (c.color != "") = true := by
  simp only [localModelConfig, List.mem_cons, List.mem_singleton, List.not_mem_nil, or_false] at hc
  rcases hc with rfl | rfl | rfl | rfl | rfl <;> decide


theorem isMlProject_ok_of_record (p : JSON) (h : isProjectRecord p = true) :
    ∃ b, isMlProject p = .ok b := by
  cases p with
  | obj kvs =>
    simp only [isMlProject, getField, getProp]
    split
    · simp only [isProjectRecord] at h
      cases hl : lookupMember "liveUrl" kvs with
      | none => exact ⟨false, by simp [truthy]⟩
      | some v =>
        rw [hl] at h
        cases v <;> simp at h
        · exact ⟨false, by simp [truthy, isTruthy]⟩
        · simp only [truthy, isTruthy]
          split <;> exact ⟨_, rfl⟩
    · exact ⟨false, rfl⟩
  | _ => simp [isProjectRecord] at h

theorem filterProjects_ok_of_records (ps : List JSON) (h : ∀ p ∈ ps, isProjectRecord p = true) :
    ∃ kept, filterProjects ps = .ok kept := by
  induction ps with
  | nil => exact ⟨[], rfl⟩
  | cons q rest ih =>
    obtain ⟨b, hb⟩ := isMlProject_ok_of_record q (h q (List.mem_cons_self _ _))
    obtain ⟨kept, hk⟩ := ih (fun p hp => h p (List.mem_cons_of_mem _ hp))
    exact ⟨if b = true then q :: kept else kept, by simp only [filterProjects, hb, hk]⟩

/-- Lists of catalog records are accepted by `processModels`. -/
theorem processModels_ok_of_records (pl : Platform) (ps : List JSON)
    (h : ∀ p ∈ ps, isProjectRecord p = true) : ∃ ms, processModels pl (some (arr ps)) = .ok ms :=
  (processModels_ok_iff pl ps).mpr (filterProjects_ok_of_records ps h)

theorem processModels_mem (pl : Platform) (ps : List JSON) (ms : List DisplayModel)
    (h : processModels pl (some (arr ps)) = .ok ms) :
    (∀ m ∈ ms, m.fetched ∈ ps ∧ Displayable m.fetched ∧ mergeModel pl m.fetched = .ok m) ∧
      (∀ p ∈ ps, Displayable p → ∃ m ∈ ms, mergeModel pl p = .ok m) := by
  unfold processModels at h
  cases hf : filterProjects ps with
  | error e => simp [hf] at h
  | ok kept =>
    simp only [hf] at h
    obtain ⟨h1, h2⟩ := mapModels_mem pl kept ms h
    constructor
    · intro m hm
      obtain ⟨p, hp, hpm⟩ := h1 m hm
      have hfp := (mergeModel_fields pl p m hpm).1
      obtain ⟨hin, hd⟩ := (filterProjects_mem ps kept hf p).mp hp
      rw [hfp]
      exact ⟨hin, hd, hpm⟩
    · intro p hp hd
      exact h2 p ((filterProjects_mem ps kept hf p).mpr ⟨hp, hd⟩)

theorem jsTrim_ne_empty_iff (s : String) :
    jsTrim s ≠ "" ↔ s ≠ "" ∧ s.data.all isJsWhitespace = false := by
  rw [Ne, jsTrim_eq_empty_iff]
  constructor
  · intro h
    refine ⟨?_, by simpa using h⟩
    rintro rfl
    exact h rfl
  · rintro ⟨_, h⟩
    simp [h]

theorem extractPath_str (pl : Platform) (s : String) :
    extractPath pl (some (str s)) =
      some (str (match pl.urlPathname s with
        | some pathname => pathname
        | none => s)) := by
  simp only [extractPath, valueText, toJsString]
  cases pl.urlPathname s <;> rfl

theorem processModels_singleton (pl : Platform) (p : JSON) (hp : Displayable p) :
    ∃ m, processModels pl (some (arr [p])) = .ok [m] ∧ mergeModel pl p = .ok m := by
  obtain ⟨m, hm⟩ := mergeModel_ok_of_ne_null pl p hp.ne_null
  have hf : isMlProject p = .ok true := (isMlProject_true_iff p).mpr hp
  exact ⟨m, by simp [processModels, filterProjects, mapModels, hf, hm], hm⟩

/-! ## Lemmas on `fetchAndMergeModels` -/

theorem areArraysEqual_arr (pl : Platform) (A B : List JSON) :
    areArraysEqual pl (some (arr A)) (some (arr B)) =
      (decide (A.length = B.length) && pl.jsonStringify (arr A) == pl.jsonStringify (arr B)) := by
  simp only [areArraysEqual, isTruthy, lengthOf, strictEq]
  by_cases h : A.length = B.length
  · simp [h]
  · have : ¬ ((A.length : Int) = (B.length : Int)) := by exact_mod_cast h
    simp [h, this]

theorem run_changed (pl : Platform) (st : Storage) (status : Nat) (Data : JSON)
    (A B : List JSON) (ms : List DisplayModel)
    (hA : loadCachedData pl st = arr A)
    (hproc : processModels pl (some (arr A)) = .ok ms)
    (hD : getField Data "data" = .ok (some (arr B)))
    (hne : A.length ≠ B.length ∨ pl.jsonStringify (arr A) ≠ pl.jsonStringify (arr B)) :
    (fetchAndMergeModels pl st (.response status (.ok Data))).events =
      [Event.setIsLoading true, Event.setModels ms, Event.setIsLoading false,
        Event.fetch (catalogUrl pl), Event.setItem cacheKey (pl.jsonStringify (arr B)),
        Event.reload, Event.setIsLoading false] ∧
    (fetchAndMergeModels pl st (.response status (.ok Data))).storage =
      (saveCachedData pl st (some (arr B))).2 := by
  have hcmp : areArraysEqual pl (some (arr A)) (some (arr B)) = false := by
    rw [areArraysEqual_arr]
    rcases hne with h | h
    · simp [h]
    · simp [h]
  simp [fetchAndMergeModels, tryBlock, fetchFresh, compareWithCache, hA, hproc, hD, hcmp,
    isTruthy, cacheText, stringifyValue]

theorem run_unchanged (pl : Platform) (st : Storage) (status : Nat) (Data : JSON)
    (A B : List JSON) (ms : List DisplayModel)
    (hA : loadCachedData pl st = arr A)
    (hproc : processModels pl (some (arr A)) = .ok ms)
    (hD : getField Data "data" = .ok (some (arr B)))
    (hlen : A.length = B.length) (hser : pl.jsonStringify (arr A) = pl.jsonStringify (arr B)) :
    (fetchAndMergeModels pl st (.response status (.ok Data))).events =
      [Event.setIsLoading true, Event.setModels ms, Event.setIsLoading false,
        Event.fetch (catalogUrl pl), Event.setIsLoading false] ∧
    (fetchAndMergeModels pl st (.response status (.ok Data))).storage = st := by
  have hcmp : areArraysEqual pl (some (arr A)) (some (arr B)) = true := by
    rw [areArraysEqual_arr]
    simp [hlen, hser]
  simp [fetchAndMergeModels, tryBlock, fetchFresh, compareWithCache, hA, hproc, hD, hcmp,
    isTruthy]

theorem run_first_visit (pl : Platform) (st : Storage) (status : Nat) (Data : JSON)
    (F : List JSON) (ms : List DisplayModel)
    (hA : isTruthy (loadCachedData pl st) = false)
    (hD : getField Data "data" = .ok (some (arr F)))
    (hproc : processModels pl (some (arr F)) = .ok ms) :
    (fetchAndMergeModels pl st (.response status (.ok Data))).events =
      [Event.setIsLoading true, Event.fetch (catalogUrl pl),
        Event.setItem cacheKey (pl.jsonStringify (arr F)), Event.setModels ms,
        Event.setIsLoading false] := by
  simp [fetchAndMergeModels, tryBlock, fetchFresh, compareWithCache, hA, hproc, hD,
    cacheText, stringifyValue]

theorem run_cache_rejected (pl : Platform) (st : Storage) (upstream : Upstream) (e : Thrown)
    (hA : isTruthy (loadCachedData pl st) = true)
    (hproc : processModels pl (some (loadCachedData pl st)) = .error e) :
    (fetchAndMergeModels pl st upstream).events =
      [Event.setIsLoading true, Event.setModels [], Event.setIsLoading false] ∧
    (fetchAndMergeModels pl st upstream).storage = st := by
  simp [fetchAndMergeModels, tryBlock, hA, hproc]


theorem fetchCount_append (xs ys : List Event) :
    fetchCount (xs ++ ys) = fetchCount xs + fetchCount ys := by
  induction xs with
  | nil => simp [fetchCount]
  | cons x rest ih =>
    cases x <;> simp [fetchCount, ih]
    omega

theorem fetchCount_compareWithCache (pl : Platform) (st : Storage) (c : JSON) (fd : JSValue)
    (before : List Event) :
    fetchCount (compareWithCache pl st c fd before).events = fetchCount before := by
  unfold compareWithCache
  split
  · dsimp only
    split <;> simp [fetchCount_append, fetchCount]
  · dsimp only
    split <;> simp [fetchCount_append, fetchCount]

theorem fetchCount_fetchFresh (pl : Platform) (st : Storage) (c : JSON) (up : Upstream)
    (before : List Event) :
    fetchCount (fetchFresh pl st c up before).events = fetchCount before + 1 := by
  unfold fetchFresh
  dsimp only
  split
  · simp [fetchCount_append, fetchCount]
  · simp [fetchCount_append, fetchCount]
  · split
    · simp [fetchCount_append, fetchCount]
    · rw [fetchCount_compareWithCache]
      simp [fetchCount_append, fetchCount]

/-- The number of fetches of a run is decided by the cache alone. -/
theorem fetchCount_run (pl : Platform) (st : Storage) (up : Upstream) :
    fetchCount (fetchAndMergeModels pl st up).events = expectedFetches pl st := by
  unfold fetchAndMergeModels expectedFetches tryBlock
  by_cases hc : isTruthy (loadCachedData pl st) = true
  · cases hp : processModels pl (some (loadCachedData pl st)) with
    | error e => simp [hc, hp, fetchCount]
    | ok ms =>
      simp only [hc, hp, if_true, fetchCount_append, fetchCount_fetchFresh]
      cases (fetchFresh pl st (loadCachedData pl st) up
        [Event.setModels ms, Event.setIsLoading false]).thrown <;> simp [fetchCount]
  · simp only [hc, Bool.false_eq_true, if_false, fetchCount_append, fetchCount_fetchFresh]
    cases (fetchFresh pl st (loadCachedData pl st) up []).thrown <;> simp [fetchCount]

theorem roundTrips_injective (pl : Platform) (v w : JSON) (hv : RoundTrips pl v)
    (hw : RoundTrips pl w) (h : pl.jsonStringify v = pl.jsonStringify w) : v = w := by
  have h1 := hv.2
  rw [h, hw.2] at h1
  exact (Option.some.inj h1).symm

theorem run_first_visit_storage (pl : Platform) (st : Storage) (status : Nat) (Data : JSON)
    (F : List JSON) (hA : isTruthy (loadCachedData pl st) = false)
    (hD : getField Data "data" = .ok (some (arr F))) :
    (fetchAndMergeModels pl st (.response status (.ok Data))).storage =
      (saveCachedData pl st (some (arr F))).2 := by
  cases hp : processModels pl (some (arr F)) <;>
    simp [fetchAndMergeModels, tryBlock, fetchFresh, compareWithCache, hA, hp, hD]

theorem saveCachedData_slot (pl : Platform) (st : Storage) (v : JSON)
    (hd : st.denied = false) (hf : st.full = false) :
    (saveCachedData pl st (some v)).2.slot = some (pl.jsonStringify v) := by
  simp [saveCachedData, hd, hf, cacheText, stringifyValue]

theorem not_denied_of_cached (pl : Platform) (st : Storage) (A : List JSON)
    (hA : loadCachedData pl st = arr A) : st.denied = false := by
  cases hd : st.denied with
  | false => rfl
  | true => simp [loadCachedData, hd] at hA

/-- A run that fetched with an array in the cache had `processModels` accept
that array. -/
theorem processed_of_fetched (pl : Platform) (st : Storage) (up : Upstream) (A : List JSON)
    (hA : loadCachedData pl st = arr A)
    (hfetch : fetchCount (fetchAndMergeModels pl st up).events = 1) :
    ∃ ms, processModels pl (some (arr A)) = .ok ms := by
  rw [fetchCount_run] at hfetch
  unfold expectedFetches at hfetch
  rw [hA] at hfetch
  cases hp : processModels pl (some (arr A)) with
  | ok ms => exact ⟨ms, rfl⟩
  | error e => simp [hp, isTruthy] at hfetch

/-! ## The reference codec reads back what it writes -/

namespace Ref

theorem digit_isDigit (d : Nat) (h : d < 10) : isDigit (Char.ofNat (48 + d)) = true := by
  interval_cases d <;> decide

theorem digit_toNat (d : Nat) (h : d < 10) : (Char.ofNat (48 + d)).toNat - 48 = d := by
  interval_cases d <;> decide

theorem digit_ne_zero (d : Nat) (h : d < 10) (h0 : d ≠ 0) : Char.ofNat (48 + d) ≠ '0' := by
  interval_cases d <;> first | exact absurd rfl h0 | decide

theorem readDigits_append (ds rest : List Char) (hds : ∀ c ∈ ds, isDigit c = true) (k : Nat) :
    readDigits (ds ++ rest) k =
      readDigits rest (ds.foldl (fun acc c => acc * 10 + (c.toNat - 48)) k) := by
  induction ds generalizing k with
  | nil => rfl
  | cons c cs ih =>
    have hc : isDigit c = true := hds c (List.mem_cons_self _ _)
    simp only [List.cons_append, readDigits, hc, if_true, List.foldl_cons]
    exact ih (fun x hx => hds x (List.mem_cons_of_mem _ hx)) _

/-- What `natDigits` puts in front of its accumulator. -/
theorem natDigits_spec (fuel n : Nat) (acc : List Char) (h : n < 10 ^ (fuel + 1)) :
    ∃ ds, natDigits (fuel + 1) n acc = ds ++ acc ∧ ds ≠ [] ∧ (∀ c ∈ ds, isDigit c = true) ∧
      (∀ k, ds.foldl (fun a c => a * 10 + (c.toNat - 48)) k = k * 10 ^ ds.length + n) ∧
      (n ≠ 0 → ds.head? ≠ some '0') ∧ (n = 0 → ds = ['0']) := by
  induction fuel generalizing n acc with
  | zero =>
    have hn : n < 10 := by simpa using h
    have hdiv : n / 10 = 0 := Nat.div_eq_of_lt hn
    have hmod : n % 10 = n := Nat.mod_eq_of_lt hn
    refine ⟨[Char.ofNat (48 + n)], ?_, by simp, ?_, ?_, ?_, ?_⟩
    · simp [natDigits, hdiv, hmod]
    · intro c hc
      rw [List.mem_singleton] at hc
      rw [hc]
      exact digit_isDigit n hn
    · intro k
      simp [digit_toNat n hn]
    · intro h0
      simpa using digit_ne_zero n hn h0
    · rintro rfl
      rfl
  | succ fuel ih =>
    by_cases hdiv : n / 10 = 0
    · have hn : n < 10 := by omega
      have hmod : n % 10 = n := Nat.mod_eq_of_lt hn
      refine ⟨[Char.ofNat (48 + n)], ?_, by simp, ?_, ?_, ?_, ?_⟩
      · simp [natDigits, hdiv, hmod]
      · intro c hc
        rw [List.mem_singleton] at hc
        rw [hc]
        exact digit_isDigit n hn
      · intro k
        simp [digit_toNat n hn]
      · intro h0
        simpa using digit_ne_zero n hn h0
      · rintro rfl
        rfl
    · have hlt : n / 10 < 10 ^ (fuel + 1) := by
        rw [Nat.div_lt_iff_lt_mul (by norm_num)]
        calc n < 10 ^ (fuel + 1 + 1) := h
          _ = 10 ^ (fuel + 1) * 10 := by ring
      have hmodlt : n % 10 < 10 := Nat.mod_lt _ (by norm_num)
      obtain ⟨ds, hds, hne, hdig, hval, hhead, _⟩ :=
        ih (n / 10) (Char.ofNat (48 + n % 10) :: acc) hlt
      refine ⟨ds ++ [Char.ofNat (48 + n % 10)], ?_, by simp, ?_, ?_, ?_, ?_⟩
      · rw [natDigits]
        simp only [hdiv, if_false]
        rw [hds]
        simp
      · intro c hc
        rcases List.mem_append.mp hc with h1 | h1
        · exact hdig c h1
        · rw [List.mem_singleton] at h1
          rw [h1]
          exact digit_isDigit _ hmodlt
      · intro k
        rw [List.foldl_append, hval]
        simp only [List.foldl_cons, List.foldl_nil, digit_toNat _ hmodlt, List.length_append,
          List.length_singleton]
        have := Nat.div_add_mod n 10
        rw [pow_succ]
        nlinarith [Nat.div_add_mod n 10]
      · intro _
        have := hhead hdiv
        cases ds with
        | nil => exact absurd rfl hne
        | cons d ds' => simpa using this
      · rintro rfl
        simp at hdiv



theorem readDigits_closes (rest : List Char) (h : Closes rest) (k : Nat) :
    readDigits rest k = (k, rest) := by
  cases rest with
  | nil => rfl
  | cons c cs =>
    have hc := h c rfl
    have : isDigit c = false := by
      rcases hc with rfl | rfl | rfl <;> decide
    simp [readDigits, this]

theorem natText_spec (n : Nat) :
    ∃ ds, natText n = ds ∧ ds ≠ [] ∧ (∀ c ∈ ds, isDigit c = true) ∧
      (∀ k, ds.foldl (fun a c => a * 10 + (c.toNat - 48)) k = k * 10 ^ ds.length + n) ∧
      (n ≠ 0 → ds.head? ≠ some '0') ∧ (n = 0 → ds = ['0']) := by
  have hlt : n < 10 ^ (n + 1) := by
    calc n < 2 ^ n := Nat.lt_two_pow n
      _ ≤ 10 ^ n := Nat.pow_le_pow_left (by norm_num) n
      _ ≤ 10 ^ (n + 1) := Nat.pow_le_pow_right (by norm_num) (Nat.le_succ n)
  obtain ⟨ds, h1, h2⟩ := natDigits_spec n n [] hlt
  exact ⟨ds, by simpa [natText] using h1, h2⟩

theorem parseNat_natText (n : Nat) (rest : List Char) (h : Closes rest) :
    parseNat (natText n ++ rest) = some (n, rest) := by
  obtain ⟨ds, hds, hne, hdig, hval, hhead, hzero⟩ := natText_spec n
  rw [hds]
  cases ds with
  | nil => exact absurd rfl hne
  | cons c cs =>
    have hc : isDigit c = true := hdig c (List.mem_cons_self _ _)
    have hread : readDigits (c :: cs ++ rest) 0 = (n, rest) := by
      rw [readDigits_append (c :: cs) rest hdig, hval, readDigits_closes rest h]
      simp
    have hlead : ¬ (c = '0' ∧ ((cs ++ rest).head?.map isDigit = some true)) := by
      rintro ⟨rfl, h2⟩
      by_cases hn : n = 0
      · have := hzero hn
        simp only [List.cons.injEq, true_and] at this
        subst this
        simp only [List.nil_append] at h2
        cases rest with
        | nil => simp at h2
        | cons r rs =>
          have hr := h r rfl
          simp only [List.head?_cons, Option.map_some', Option.some.injEq] at h2
          rcases hr with rfl | rfl | rfl <;> revert h2 <;> decide
      · exact hhead hn rfl
    have hfrac : ¬ (rest.head? = some '.' ∨ rest.head? = some 'e' ∨ rest.head? = some 'E') := by
      rintro (h1 | h1 | h1) <;> rcases h _ h1 with h2 | h2 | h2 <;> revert h2 <;> decide
    simp only [List.cons_append] at hread hlead ⊢
    simp only [parseNat, hc, if_true, hread, hlead, hfrac, if_false]

theorem natText_head (n : Nat) : ∃ c cs, natText n = c :: cs ∧ isDigit c = true := by
  obtain ⟨ds, hds, hne, hdig, _⟩ := natText_spec n
  cases ds with
  | nil => exact absurd rfl hne
  | cons c cs => exact ⟨c, cs, hds, hdig c (List.mem_cons_self _ _)⟩

theorem parseInt_intText (n : Int) (rest : List Char) (h : Closes rest) :
    parseInt (intText n ++ rest) = some (JSON.num n, rest) := by
  cases n with
  | ofNat k =>
    obtain ⟨c, cs, hcs, hc⟩ := natText_head k
    have hminus : c ≠ '-' := by
      rintro rfl
      revert hc
      decide
    have hp := parseNat_natText k rest h
    simp only [intText, hcs, List.cons_append] at hp ⊢
    simp [parseInt, hminus, hp]
  | negSucc k =>
    have hp := parseNat_natText (k + 1) rest h
    simp only [intText, List.cons_append, parseInt, if_true, hp, Option.map_some']
    rfl

theorem parseString_cons (c : Char) (rest acc : List Char) :
    parseString (c :: rest) acc =
      if c = '"' then some (String.mk acc.reverse, rest)
      else if c = '\\' then
        match rest with
        | [] => none
        | e :: rest1 =>
          if e = 'u' then
            match rest1 with
            | h1 :: h2 :: h3 :: h4 :: rest2 =>
              match unicodeEscape h1 h2 h3 h4 with
              | some ch => parseString rest2 (ch :: acc)
              | none => none
            | _ => none
          else
            match unescape e with
            | some ch => parseString rest1 (ch :: acc)
            | none => none
      else if c.toNat < 32 then none
      else parseString rest (c :: acc) := by
  exact parseString.eq_def (c :: rest) acc

theorem unicodeEscape_control (n : Nat) (h : n < 32) :
    unicodeEscape '0' '0' (hexDigit (n / 16)) (hexDigit (n % 16)) = some (Char.ofNat n) := by
  interval_cases n <;> decide

theorem parseString_escapeChar (c : Char) (tail acc : List Char) :
    parseString (escapeChar c ++ tail) acc = parseString tail (c :: acc) := by
  unfold escapeChar
  split
  · next h => subst h; simp [parseString_cons, unescape]
  split
  · next h => subst h; simp [parseString_cons, unescape]
  split
  · next h => subst h; simp [parseString_cons, unescape]
  split
  · next h => subst h; simp [parseString_cons, unescape]
  split
  · next h => subst h; simp [parseString_cons, unescape]
  split
  · next h => subst h; simp [parseString_cons, unescape]
  split
  · next h => subst h; simp [parseString_cons, unescape]
  split
  · next h =>
    have hu := unicodeEscape_control c.toNat h
    rw [Char.ofNat_toNat] at hu
    simp [parseString_cons, hu]
  · next h1 h2 _ _ _ _ _ h8 =>
    simp [parseString_cons, h1, h2, h8]

theorem parseString_escapeChars (s tail acc : List Char) :
    parseString (escapeChars s ++ '"' :: tail) acc = some (String.mk (acc.reverse ++ s), tail) := by
  induction s generalizing acc with
  | nil => simp [escapeChars, parseString_cons]
  | cons c cs ih =>
    simp only [escapeChars, List.append_assoc]
    rw [parseString_escapeChar, ih]
    simp

theorem parseString_quote (s : String) (tail : List Char) :
    parseString (escapeChars s.data ++ '"' :: tail) [] = some (s, tail) := by
  simpa using parseString_escapeChars s.data tail []

theorem skipWs_of_head (c : Char) (cs : List Char) (h : isWs c = false) :
    skipWs (c :: cs) = c :: cs := by
  simp [skipWs, h]

theorem closes_cons (c : Char) (cs : List Char) (h : c = ',' ∨ c = ']' ∨ c = '\x7d') :
    Closes (c :: cs) := by
  intro d hd
  simp only [List.head?_cons, Option.some.injEq] at hd
  rw [← hd]
  exact h

theorem intText_head (n : Int) :
    ∃ c tail, intText n = c :: tail ∧ (c = '-' ∨ isDigit c = true) := by
  cases n with
  | ofNat k =>
    obtain ⟨c, cs, hcs, hc⟩ := natText_head k
    exact ⟨c, cs, hcs, Or.inr hc⟩
  | negSucc k => exact ⟨'-', natText (k + 1), rfl, Or.inl rfl⟩

theorem number_head (c : Char) (h : c = '-' ∨ isDigit c = true) :
    isWs c = false ∧ c ≠ 'n' ∧ c ≠ 't' ∧ c ≠ 'f' ∧ c ≠ '"' ∧ c ≠ '[' ∧ c ≠ '\x7b' ∧ c ≠ ']' := by
  rcases h with rfl | h
  · decide
  · have key : ∀ d : Char, isDigit d = false → c ≠ d := by
      rintro d hd rfl
      rw [h] at hd
      cases hd
    refine ⟨?_, key _ (by decide), key _ (by decide), key _ (by decide), key _ (by decide),
      key _ (by decide), key _ (by decide), key _ (by decide)⟩
    have h1 := key ' ' (by decide)
    have h2 := key '\t' (by decide)
    have h3 := key '\n' (by decide)
    have h4 := key '\r' (by decide)
    simp [isWs, h1, h2, h3, h4]

/-- The first character of a serialization starts a value. -/
theorem serialize_head (v : JSON) :
    ∃ c tail, serialize v = c :: tail ∧ isWs c = false ∧ c ≠ ']' := by
  cases v with
  | null => exact ⟨'n', _, rfl, by decide, by decide⟩
  | bool b => cases b <;> exact ⟨_, _, rfl, by decide, by decide⟩
  | num n =>
    obtain ⟨c, tail, hc, hd⟩ := intText_head n
    obtain ⟨h1, _, _, _, _, _, _, h8⟩ := number_head c hd
    exact ⟨c, tail, hc, h1, h8⟩
  | str s => exact ⟨'"', _, rfl, by decide, by decide⟩
  | arr xs => cases xs <;> exact ⟨'[', _, rfl, by decide, by decide⟩
  | obj kvs =>
    cases kvs with
    | nil => exact ⟨'\x7b', _, rfl, by decide, by decide⟩
    | cons kv rest =>
      obtain ⟨k, v⟩ := kv
      exact ⟨'\x7b', _, rfl, by decide, by decide⟩

theorem serializeElements_closes (xs : List JSON) (rest : List Char) :
    Closes (serializeElements xs ++ rest) := by
  cases xs with
  | nil => exact closes_cons _ _ (Or.inr (Or.inl rfl))
  | cons x xs => exact closes_cons _ _ (Or.inl rfl)

theorem serializeMembers_closes (kvs : List (String × JSON)) (rest : List Char) :
    Closes (serializeMembers kvs ++ rest) := by
  cases kvs with
  | nil => exact closes_cons _ _ (Or.inr (Or.inr rfl))
  | cons kv kvs =>
    obtain ⟨k, v⟩ := kv
    exact closes_cons _ _ (Or.inl rfl)

mutual
theorem parseValue_serialize : ∀ (v : JSON) (fuel : Nat) (rest : List Char),
    weight v ≤ fuel → Closes rest → parseValue fuel (serialize v ++ rest) = some (v, rest)
  | .null, fuel, rest, hf, _ => by
    obtain ⟨f, rfl⟩ : ∃ f, fuel = f + 1 := ⟨fuel - 1, by simp only [weight] at hf; omega⟩
    simp [parseValue, serialize, skipWs, isWs, dropWord]
  | .bool true, fuel, rest, hf, _ => by
    obtain ⟨f, rfl⟩ : ∃ f, fuel = f + 1 := ⟨fuel - 1, by simp only [weight] at hf; omega⟩
    simp [parseValue, serialize, skipWs, isWs, dropWord]
  | .bool false, fuel, rest, hf, _ => by
    obtain ⟨f, rfl⟩ : ∃ f, fuel = f + 1 := ⟨fuel - 1, by simp only [weight] at hf; omega⟩
    simp [parseValue, serialize, skipWs, isWs, dropWord]
  | .num n, fuel, rest, hf, hrest => by
    obtain ⟨f, rfl⟩ : ∃ f, fuel = f + 1 := ⟨fuel - 1, by simp only [weight] at hf; omega⟩
    obtain ⟨c, tail, hc, hd⟩ := intText_head n
    obtain ⟨h1, h2, h3, h4, h5, h6, h7, _⟩ := number_head c hd
    have hp := parseInt_intText n rest hrest
    simp only [serialize, hc, List.cons_append] at hp ⊢
    simp only [parseValue, skipWs_of_head c _ h1, h2, h3, h4, h5, h6, h7, if_false, hp]
  | .str s, fuel, rest, hf, _ => by
    obtain ⟨f, rfl⟩ : ∃ f, fuel = f + 1 := ⟨fuel - 1, by simp only [weight] at hf; omega⟩
    have hq := parseString_quote s rest
    simp [parseValue, serialize, quote, skipWs, isWs, hq]
  | .arr [], fuel, rest, hf, _ => by
    obtain ⟨f, rfl⟩ : ∃ f, fuel = f + 1 := ⟨fuel - 1, by simp only [weight] at hf; omega⟩
    simp [parseValue, serialize, skipWs, isWs]
  | .arr (x :: xs), fuel, rest, hf, _ => by
    obtain ⟨f, rfl⟩ : ∃ f, fuel = f + 1 := ⟨fuel - 1, by simp only [weight] at hf; omega⟩
    have he := parseElements_serialize (x :: xs) f rest (by simp)
      (by simp only [weight] at hf; omega)
    obtain ⟨c, tail, hc, hws, hclose⟩ := serialize_head x
    simp only [serialize, List.tail_cons] at he
    simp only [serialize, List.cons_append, parseValue,
      skipWs_of_head '[' _ (by decide), List.append_assoc]
    simp only [List.append_assoc] at he
    rw [he]
    simp [hc, skipWs_of_head c _ hws, hclose]
  | .obj [], fuel, rest, hf, _ => by
    obtain ⟨f, rfl⟩ : ∃ f, fuel = f + 1 := ⟨fuel - 1, by simp only [weight] at hf; omega⟩
    simp [parseValue, serialize, skipWs, isWs]
  | .obj ((k, v) :: kvs), fuel, rest, hf, _ => by
    obtain ⟨f, rfl⟩ : ∃ f, fuel = f + 1 := ⟨fuel - 1, by simp only [weight] at hf; omega⟩
    have he := parseMembers_serialize ((k, v) :: kvs) f rest (by simp)
      (by simp only [weight] at hf; omega)
    simp only [serialize, List.tail_cons] at he
    simp only [serialize, List.cons_append, parseValue,
      skipWs_of_head '\x7b' _ (by decide), List.append_assoc]
    simp only [List.append_assoc, List.cons_append] at he
    rw [he]
    simp [quote, skipWs, isWs]
theorem parseElements_serialize : ∀ (l : List JSON) (fuel : Nat) (rest : List Char),
    l ≠ [] → weightElements l ≤ fuel →
      parseElements fuel ((serialize (.arr l)).tail ++ rest) = some (l, rest)
  | [], _, _, h, _ => absurd rfl h
  | x :: xs, fuel, rest, _, hf => by
    obtain ⟨f, rfl⟩ : ∃ f, fuel = f + 1 :=
      ⟨fuel - 1, by simp only [weightElements] at hf; omega⟩
    have hv := parseValue_serialize x f (serializeElements xs ++ rest)
      (by simp only [weightElements] at hf; omega) (serializeElements_closes xs rest)
    have ih := parseElements_serialize xs f rest
    simp only [serialize, List.tail_cons, List.append_assoc, parseElements, hv]
    cases xs with
    | nil => simp [serializeElements, skipWs, isWs]
    | cons y ys =>
      have ih1 := ih (by simp) (by simp only [weightElements] at hf ⊢; omega)
      simp only [serialize, List.tail_cons, List.append_assoc] at ih1
      simp [serializeElements, skipWs, isWs, ih1]
theorem parseMembers_serialize : ∀ (l : List (String × JSON)) (fuel : Nat) (rest : List Char),
    l ≠ [] → weightMembers l ≤ fuel →
      parseMembers fuel ((serialize (.obj l)).tail ++ rest) = some (l, rest)
  | [], _, _, h, _ => absurd rfl h
  | (k, v) :: kvs, fuel, rest, _, hf => by
    obtain ⟨f, rfl⟩ : ∃ f, fuel = f + 1 :=
      ⟨fuel - 1, by simp only [weightMembers] at hf; omega⟩
    have hv := parseValue_serialize v f (serializeMembers kvs ++ rest)
      (by simp only [weightMembers] at hf; omega) (serializeMembers_closes kvs rest)
    have ih := parseMembers_serialize kvs f rest
    cases kvs with
    | nil =>
      have hq := parseString_quote k (':' :: (serialize v ++ '\x7d' :: rest))
      simp only [serializeMembers, List.singleton_append] at hv
      simp [serialize, serializeMembers, parseMembers, quote, skipWs, isWs, hq, hv]
    | cons kv kvs1 =>
      obtain ⟨k1, v1⟩ := kv
      have ih1 := ih (by simp) (by simp only [weightMembers] at hf ⊢; omega)
      simp only [serialize, List.tail_cons, List.append_assoc, List.cons_append] at ih1
      have hq := parseString_quote k (':' :: (serialize v ++
        ',' :: (quote k1 ++ ':' :: (serialize v1 ++ (serializeMembers kvs1 ++ rest)))))
      simp only [serializeMembers, quote, List.cons_append, List.append_assoc,
        List.nil_append] at hv hq ih1
      simp only [serialize, serializeMembers, List.tail_cons, List.append_assoc,
        List.cons_append, parseMembers, quote, skipWs_of_head '"' _ (by decide), if_true,
        List.nil_append, hq, skipWs_of_head ':' _ (by decide), hv,
        skipWs_of_head ',' _ (by decide), ih1]
      simp
end


mutual
theorem weight_le_length : ∀ v : JSON, weight v ≤ (serialize v).length
  | .null => by simp [weight, serialize]
  | .bool true => by simp [weight, serialize]
  | .bool false => by simp [weight, serialize]
  | .num n => by
    obtain ⟨c, tail, hc, _⟩ := intText_head n
    simp [weight, serialize, hc]
  | .str s => by simp [weight, serialize, quote]
  | .arr [] => by simp [weight, weightElements, serialize]
  | .arr (x :: xs) => by
    have h1 := weight_le_length x
    have h2 := weightElements_lt_length xs
    simp only [weight, weightElements, serialize, List.length_cons, List.length_append]
    omega
  | .obj [] => by simp [weight, weightMembers, serialize]
  | .obj ((k, v) :: kvs) => by
    have h1 := weight_le_length v
    have h2 := weightMembers_lt_length kvs
    simp only [weight, weightMembers, serialize, List.length_cons, List.length_append]
    omega
theorem weightElements_lt_length : ∀ xs : List JSON,
    weightElements xs + 1 ≤ (serializeElements xs).length
  | [] => by simp [weightElements, serializeElements]
  | x :: xs => by
    have h1 := weight_le_length x
    have h2 := weightElements_lt_length xs
    simp only [weightElements, serializeElements, List.length_cons, List.length_append]
    omega
theorem weightMembers_lt_length : ∀ kvs : List (String × JSON),
    weightMembers kvs + 1 ≤ (serializeMembers kvs).length
  | [] => by simp [weightMembers, serializeMembers]
  | (k, v) :: kvs => by
    have h1 := weight_le_length v
    have h2 := weightMembers_lt_length kvs
    simp only [weightMembers, serializeMembers, List.length_cons, List.length_append]
    omega
end

/-- The reference `JSON.parse` reads back every text the reference
`JSON.stringify` writes. -/
theorem parse_stringify (v : JSON) : parse (stringify v) = some v := by
  have h := parseValue_serialize v ((serialize v).length + 1) []
    (Nat.le_succ_of_le (weight_le_length v)) (by intro c hc; cases hc)
  rw [List.append_nil] at h
  simp [parse, stringify, h, skipWs]

theorem stringify_ne_empty (v : JSON) : stringify v ≠ "" := by
  obtain ⟨c, tail, hc, _⟩ := serialize_head v
  intro h
  have := congrArg String.data h
  simp [stringify, hc] at this

/-- The reference platform meets the JSON contract at every value. -/
theorem platform_roundTrips (v : JSON) : RoundTrips platform v :=
  ⟨stringify_ne_empty v, parse_stringify v⟩

end Ref

/-! ## The claims -/

set_option maxRecDepth 100000

/-- C1: for every cached array `A` and every array `B` that the run's fetch
returns, different from `A` in length or in JSON serialization, one run
writes `B` to the `ml_models_cache` slot exactly once (one `setItem` call with
that key and the serialization of `B`; the slot then holds it, the storage
not being full), triggers exactly one reload, and its only `setModels` call
shows the list derived from the cached `A`: none is derived from `B`. -/
theorem reconcile_change_writes_and_reloads (pl : Platform) (st : Storage) (status : Nat)
    (Data : JSON) (A B : List JSON)
    (hA : loadCachedData pl st = arr A)
    (hD : getField Data "data" = .ok (some (arr B)))
    (hfetch : fetchCount (fetchAndMergeModels pl st (.response status (.ok Data))).events = 1)
    (hne : A.length ≠ B.length ∨ pl.jsonStringify (arr A) ≠ pl.jsonStringify (arr B)) :
    storageWrites (fetchAndMergeModels pl st (.response status (.ok Data))).events =
        [("ml_models_cache", pl.jsonStringify (arr B))] ∧
      reloadCount (fetchAndMergeModels pl st (.response status (.ok Data))).events = 1 ∧
      (∃ ms, processModels pl (some (arr A)) = .ok ms ∧
        modelUpdates (fetchAndMergeModels pl st (.response status (.ok Data))).events = [ms]) ∧
      (st.full = false → (fetchAndMergeModels pl st (.response status (.ok Data))).storage.slot =
        some (pl.jsonStringify (arr B))) := by
  obtain ⟨ms, hproc⟩ := processed_of_fetched pl st _ A hA hfetch
  obtain ⟨hev, hst⟩ := run_changed pl st status Data A B ms hA hproc hD hne
  rw [hev, hst]
  exact ⟨rfl, rfl, ⟨ms, hproc, rfl⟩,
    fun hf => saveCachedData_slot pl st (arr B) (not_denied_of_cached pl st A hA) hf⟩

/-- C1 (witness): the cache holds the end-to-end catalog and the fetch returns
a catalog with one project more; the one list shown is the cached one. -/
theorem reconcile_change_writes_and_reloads_witness :
    loadCachedData Ref.platform
        (Sample.cached (Ref.platform.jsonStringify (arr [Sample.heart]))) =
        arr [Sample.heart] ∧
      fetchCount (fetchAndMergeModels Ref.platform
        (Sample.cached (Ref.platform.jsonStringify (arr [Sample.heart])))
        (Sample.catalog [Sample.churnV2, Sample.heart])).events = 1 ∧
      storageWrites (fetchAndMergeModels Ref.platform
        (Sample.cached (Ref.platform.jsonStringify (arr [Sample.heart])))
        (Sample.catalog [Sample.churnV2, Sample.heart])).events =
        [("ml_models_cache", Ref.platform.jsonStringify (arr [Sample.churnV2, Sample.heart]))] ∧
      reloadCount (fetchAndMergeModels Ref.platform
        (Sample.cached (Ref.platform.jsonStringify (arr [Sample.heart])))
        (Sample.catalog [Sample.churnV2, Sample.heart])).events = 1 ∧
      modelUpdates (fetchAndMergeModels Ref.platform
        (Sample.cached (Ref.platform.jsonStringify (arr [Sample.heart])))
        (Sample.catalog [Sample.churnV2, Sample.heart])).events = [[Sample.heartCard]] ∧
      (fetchAndMergeModels Ref.platform
        (Sample.cached (Ref.platform.jsonStringify (arr [Sample.heart])))
        (Sample.catalog [Sample.churnV2, Sample.heart])).storage.slot =
        some (Ref.platform.jsonStringify (arr [Sample.churnV2, Sample.heart])) :=
  have h := reconcile_change_writes_and_reloads Ref.platform
    (Sample.cached (Ref.platform.jsonStringify (arr [Sample.heart]))) 200
    (obj [("data", arr [Sample.churnV2, Sample.heart])]) [Sample.heart]
    [Sample.churnV2, Sample.heart] (by decide) (by decide) (by decide) (Or.inl (by decide))
  ⟨by decide, by decide, h.1, h.2.1, by decide, h.2.2.2 rfl⟩

/-- C2: for every cached array `A` (the empty array included), when the run's
fetch returns an array with the same JSON serialization as `A`, one run calls
`setItem` never and reloads never, leaves the storage as it was, and the list
on display is the one `processModels` derives from the cached `A`. -/
theorem reconcile_same_serialization_is_silent (pl : Platform) (st : Storage) (status : Nat)
    (Data : JSON) (A B : List JSON)
    (hA : loadCachedData pl st = arr A)
    (hD : getField Data "data" = .ok (some (arr B)))
    (hfetch : fetchCount (fetchAndMergeModels pl st (.response status (.ok Data))).events = 1)
    (hrtA : RoundTrips pl (arr A)) (hrtB : RoundTrips pl (arr B))
    (hser : pl.jsonStringify (arr B) = pl.jsonStringify (arr A)) :
    storageWrites (fetchAndMergeModels pl st (.response status (.ok Data))).events = [] ∧
      reloadCount (fetchAndMergeModels pl st (.response status (.ok Data))).events = 0 ∧
      (fetchAndMergeModels pl st (.response status (.ok Data))).storage = st ∧
      ∃ ms, processModels pl (some (arr A)) = .ok ms ∧
        displayedModels (fetchAndMergeModels pl st (.response status (.ok Data))).events = ms := by
  obtain ⟨ms, hproc⟩ := processed_of_fetched pl st _ A hA hfetch
  have hAB : arr A = arr B := roundTrips_injective pl _ _ hrtA hrtB hser.symm
  have hlen : A.length = B.length := by
    rw [arr.injEq] at hAB
    rw [hAB]
  obtain ⟨hev, hst⟩ := run_unchanged pl st status Data A B ms hA hproc hD hlen hser.symm
  rw [hev, hst]
  exact ⟨rfl, rfl, rfl, ms, hproc, rfl⟩

/-- C2 (witness): the cache holds the end-to-end project and a blog entry, the
fetch returns the same catalog, and the card of the project stays on
display. -/
theorem reconcile_same_serialization_is_silent_witness :
    loadCachedData Ref.platform
        (Sample.cached (Ref.platform.jsonStringify (arr [Sample.heart, Sample.blog]))) =
        arr [Sample.heart, Sample.blog] ∧
      fetchCount (fetchAndMergeModels Ref.platform
        (Sample.cached (Ref.platform.jsonStringify (arr [Sample.heart, Sample.blog])))
        (Sample.catalog [Sample.heart, Sample.blog])).events = 1 ∧
      storageWrites (fetchAndMergeModels Ref.platform
        (Sample.cached (Ref.platform.jsonStringify (arr [Sample.heart, Sample.blog])))
        (Sample.catalog [Sample.heart, Sample.blog])).events = [] ∧
      reloadCount (fetchAndMergeModels Ref.platform
        (Sample.cached (Ref.platform.jsonStringify (arr [Sample.heart, Sample.blog])))
        (Sample.catalog [Sample.heart, Sample.blog])).events = 0 ∧
      (fetchAndMergeModels Ref.platform
        (Sample.cached (Ref.platform.jsonStringify (arr [Sample.heart, Sample.blog])))
        (Sample.catalog [Sample.heart, Sample.blog])).storage =
        Sample.cached (Ref.platform.jsonStringify (arr [Sample.heart, Sample.blog])) ∧
      processModels Ref.platform (some (arr [Sample.heart, Sample.blog])) =
        .ok [Sample.heartCard] ∧
      displayedModels (fetchAndMergeModels Ref.platform
        (Sample.cached (Ref.platform.jsonStringify (arr [Sample.heart, Sample.blog])))
        (Sample.catalog [Sample.heart, Sample.blog])).events = [Sample.heartCard] :=
  have h := reconcile_same_serialization_is_silent Ref.platform
    (Sample.cached (Ref.platform.jsonStringify (arr [Sample.heart, Sample.blog]))) 200
    (obj [("data", arr [Sample.heart, Sample.blog])]) [Sample.heart, Sample.blog]
    [Sample.heart, Sample.blog] (by decide) (by decide) (by decide)
    ⟨by decide, by decide⟩ ⟨by decide, by decide⟩ rfl
  ⟨by decide, by decide, h.1, h.2.1, h.2.2.1, by decide, by decide⟩

/-- C3 (evaluation): the two GET routes answer a thrown network error and an
upstream status 500 with status 500 and a body `{ error: message }`, and so
does the POST route for a thrown network error; for an upstream response with
a JSON body the POST route answers status 200 with that body whatever the
upstream status is, 500 included. -/
theorem heart_disease_relays_upstream_failure (pl : Platform) (e : Thrown) (formData d : JSON)
    (status : Nat) :
    Projects.GET pl (fun _ => .networkError e) =
        { status := 500, body := pl.jsonStringify (obj [("error", str e)]) } ∧
      HealthCheck.GET pl (fun _ => .networkError e) =
        { status := 500, body := pl.jsonStringify (obj [("error", str e)]) } ∧
      Projects.GET pl (fun _ => .response 500 (.ok d)) =
        { status := 500
          body := pl.jsonStringify (obj [("error", str "Python server error: 500")]) } ∧
      HealthCheck.GET pl (fun _ => .response 500 (.ok d)) =
        { status := 500
          body := pl.jsonStringify (obj [("error", str "Python server error: 500")]) } ∧
      HeartDisease.POST pl (.ok formData) (fun _ _ => .networkError e) =
        { status := 500
          body := pl.jsonStringify (obj [("success", JSON.bool false), ("error", str e)]) } ∧
      HeartDisease.POST pl (.ok formData) (fun _ _ => .response 500 (.ok d)) =
        { status := 200, body := pl.jsonStringify d } ∧
      HeartDisease.POST pl (.ok formData) (fun _ _ => .response status (.ok d)) =
        { status := 200, body := pl.jsonStringify d } :=
  ⟨rfl, rfl, rfl, rfl, rfl, rfl, rfl⟩

/-- C4: whatever list of projects `processModels` is given, every card of its
result is derived from a project of the list whose category is exactly
"Machine Learning" and whose `liveUrl` is neither missing nor `null` nor empty
nor made of whitespace only. -/
theorem processModels_excludes_ineligible (pl : Platform) (ps : List JSON)
    (ms : List DisplayModel) (h : processModels pl (some (arr ps)) = .ok ms)
    (m : DisplayModel) (hm : m ∈ ms) :
    m.fetched ∈ ps ∧ getProp m.fetched "category" = some (str "Machine Learning") ∧
      getProp m.fetched "liveUrl" ≠ none ∧ getProp m.fetched "liveUrl" ≠ some null ∧
      ∃ s, getProp m.fetched "liveUrl" = some (str s) ∧ s ≠ "" ∧
        s.data.all isJsWhitespace = false := by
  obtain ⟨hin, ⟨hcat, s, hs, htrim⟩, _⟩ := (processModels_mem pl ps ms h).1 m hm
  obtain ⟨hne, hws⟩ := (jsTrim_ne_empty_iff s).mp htrim
  exact ⟨hin, hcat, by simp [hs], by simp [hs], s, hs, hne, hws⟩

/-- C4 (witness): of a blog entry, the end-to-end project and a blank-address
project, only the end-to-end project gets a card. -/
theorem processModels_excludes_ineligible_witness :
    processModels Ref.platform (some (arr [Sample.blog, Sample.heart, Sample.blank])) =
        .ok [Sample.heartCard] ∧
      Sample.heartCard.fetched ∈ [Sample.blog, Sample.heart, Sample.blank] ∧
      getProp Sample.heartCard.fetched "category" = some (str "Machine Learning") ∧
      getProp Sample.heartCard.fetched "liveUrl" ≠ none ∧
      getProp Sample.heartCard.fetched "liveUrl" ≠ some null ∧
      ∃ s, getProp Sample.heartCard.fetched "liveUrl" = some (str s) ∧ s ≠ "" ∧
        s.data.all isJsWhitespace = false :=
  ⟨by decide,
    processModels_excludes_ineligible Ref.platform [Sample.blog, Sample.heart, Sample.blank]
      [Sample.heartCard] (by decide) Sample.heartCard (by simp)⟩

/-- C5 (evaluation): on the reference platform the text
"/heart-disease-prediction" is not a parseable URL, yet `processModels` turns
the Machine Learning project that has it as `liveUrl` into a card: the filter
tests only that `liveUrl` is a non-blank string, and `extractPath` returns the
text itself when the `URL` constructor throws, so the card even takes the id,
icon and color of configuration entry 2. -/
theorem unparseable_liveUrl_is_displayed :
    Ref.platform.urlPathname "/heart-disease-prediction" = none ∧
      getProp Sample.barePath "category" = some (str "Machine Learning") ∧
      getProp Sample.barePath "liveUrl" = some (str "/heart-disease-prediction") ∧
      processModels Ref.platform (some (arr [Sample.barePath])) = .ok [Sample.barePathCard] ∧
      Sample.barePathCard.fetched = Sample.barePath ∧
      Sample.barePathCard.id = some (num 2) ∧ Sample.barePathCard.icon = Icon.Heart := by
  decide

/-- C6: whatever list `processModels` is given, every project of the list that
the filter keeps gets a card, and every card of the result is built from such
a project `p` with: the id, icon and color of the entry of `localModelConfig`
whose path is the path taken from `p.liveUrl` (what `extractPath` returns, the
URL pathname whenever `liveUrl` parses), when there is one; the id of `p`, the
`Plus` icon and the color "from-gray-500 to-gray-600" when no entry has that
path.  The five entries are spelled out: a card whose path is
"/heart-disease-prediction" has id 2, the `Heart` icon and the color
"from-red-500 to-pink-600", and so on. -/
theorem processModels_joins_configuration (pl : Platform) (ps : List JSON)
    (ms : List DisplayModel) (h : processModels pl (some (arr ps)) = .ok ms) :
    (∀ p ∈ ps, Displayable p → ∃ m ∈ ms, m.fetched = p) ∧
      ∀ m ∈ ms, m.fetched ∈ ps ∧ Displayable m.fetched ∧
        (∀ c ∈ localModelConfig,
          extractPath pl (getProp m.fetched "liveUrl") = some (str c.path) →
          m.id = some (num c.id) ∧ m.icon = c.icon ∧ m.color = c.color) ∧
        ((∀ c ∈ localModelConfig,
          extractPath pl (getProp m.fetched "liveUrl") ≠ some (str c.path)) →
          m.id = getProp m.fetched "id" ∧ m.icon = Icon.Plus ∧
            m.color = "from-gray-500 to-gray-600") ∧
        (∀ s pathname, getProp m.fetched "liveUrl" = some (str s) →
          pl.urlPathname s = some pathname →
          (∀ c ∈ localModelConfig, c.path = pathname →
            m.id = some (num c.id) ∧ m.icon = c.icon ∧ m.color = c.color) ∧
          ((∀ c ∈ localModelConfig, c.path ≠ pathname) →
            m.id = getProp m.fetched "id" ∧ m.icon = Icon.Plus ∧
              m.color = "from-gray-500 to-gray-600")) ∧
        (extractPath pl (getProp m.fetched "liveUrl") = some (str "/medical-charge-prediction") →
          m.id = some (num 1) ∧ m.icon = Icon.Activity ∧
            m.color = "from-purple-500 to-indigo-600") ∧
        (extractPath pl (getProp m.fetched "liveUrl") = some (str "/heart-disease-prediction") →
          m.id = some (num 2) ∧ m.icon = Icon.Heart ∧ m.color = "from-red-500 to-pink-600") ∧
        (extractPath pl (getProp m.fetched "liveUrl") = some (str "/customer-churn-prediction") →
          m.id = some (num 3) ∧ m.icon = Icon.UserSearch ∧
            m.color = "from-yellow-500 to-orange-600") ∧
        (extractPath pl (getProp m.fetched "liveUrl") = some (str "/house-price-estimator") →
          m.id = some (num 4) ∧ m.icon = Icon.Home ∧ m.color = "from-green-500 to-teal-600") ∧
        (extractPath pl (getProp m.fetched "liveUrl") = some (str "/uplift-model") →
          m.id = some (num 5) ∧ m.icon = Icon.ShoppingCart ∧
            m.color = "from-green-500 to-teal-600") := by
  obtain ⟨hcards, hkept⟩ := processModels_mem pl ps ms h
  constructor
  · intro p hp hd
    obtain ⟨m, hm, hmerge⟩ := hkept p hp hd
    exact ⟨m, hm, (mergeModel_fields pl p m hmerge).1⟩
  · intro m hm
    obtain ⟨hin, hd, hmerge⟩ := hcards m hm
    obtain ⟨_, _, _, hid, hicon, hcolor⟩ := mergeModel_fields pl m.fetched m hmerge
    have hmatch : ∀ c ∈ localModelConfig,
        extractPath pl (getProp m.fetched "liveUrl") = some (str c.path) →
        m.id = some (num c.id) ∧ m.icon = c.icon ∧ m.color = c.color := by
      intro c hc hpath
      have hcfg := configFor_of_mem c hc
      obtain ⟨ht, hcol⟩ := config_id_truthy c hc
      rw [hpath, hcfg] at hid hicon hcolor
      refine ⟨?_, hicon, ?_⟩
      · rw [hid]
        simp [jsOr, ht]
      · rw [hcolor]
        simp [hcol]
    have hnone : (∀ c ∈ localModelConfig,
        extractPath pl (getProp m.fetched "liveUrl") ≠ some (str c.path)) →
        m.id = getProp m.fetched "id" ∧ m.icon = Icon.Plus ∧
          m.color = "from-gray-500 to-gray-600" := by
      intro hall
      have hcfg := configFor_eq_none _ hall
      rw [hcfg] at hid hicon hcolor
      refine ⟨?_, hicon, hcolor⟩
      rw [hid]
      simp [jsOr, truthy]
    refine ⟨hin, hd, hmatch, hnone, ?_, ?_, ?_, ?_, ?_, ?_⟩
    · intro s pathname hs hpn
      have hex : extractPath pl (getProp m.fetched "liveUrl") = some (str pathname) := by
        rw [hs, extractPath_str, hpn]
      constructor
      · intro c hc hcp
        exact hmatch c hc (by rw [hex, hcp])
      · intro hall
        apply hnone
        intro c hc hcontra
        rw [hex] at hcontra
        simp only [Option.some.injEq, str.injEq] at hcontra
        exact hall c hc hcontra.symm
    · exact hmatch ⟨1, "/medical-charge-prediction", Icon.Activity,
        "from-purple-500 to-indigo-600"⟩ (by decide)
    · exact hmatch ⟨2, "/heart-disease-prediction", Icon.Heart, "from-red-500 to-pink-600"⟩
        (by decide)
    · exact hmatch ⟨3, "/customer-churn-prediction", Icon.UserSearch,
        "from-yellow-500 to-orange-600"⟩ (by decide)
    · exact hmatch ⟨4, "/house-price-estimator", Icon.Home, "from-green-500 to-teal-600"⟩
        (by decide)
    · exact hmatch ⟨5, "/uplift-model", Icon.ShoppingCart, "from-green-500 to-teal-600"⟩
        (by decide)

/-- C6 (witness): of a project with an unconfigured path, a blog entry and the
end-to-end project, the first gets a card with its own id 11, `Plus` and the
gray color, the last, second in the result, a card with id 2, `Heart` and
the color of entry 2. -/
theorem processModels_joins_configuration_witness :
    processModels Ref.platform (some (arr [Sample.churnV2, Sample.blog, Sample.heart])) =
        .ok [Sample.churnCard, Sample.heartCard] ∧
      (∃ m ∈ [Sample.churnCard, Sample.heartCard], m.fetched = Sample.heart) ∧
      (Sample.heartCard.id = some (num 2) ∧ Sample.heartCard.icon = Icon.Heart ∧
        Sample.heartCard.color = "from-red-500 to-pink-600") ∧
      (Sample.churnCard.id = getProp Sample.churnV2 "id" ∧ Sample.churnCard.icon = Icon.Plus ∧
        Sample.churnCard.color = "from-gray-500 to-gray-600") ∧
      getProp Sample.churnV2 "id" = some (num 11) :=
  have h := processModels_joins_configuration Ref.platform
    [Sample.churnV2, Sample.blog, Sample.heart] [Sample.churnCard, Sample.heartCard]
    (by decide)
  have hheart := h.2 Sample.heartCard (by decide)
  have hchurn := h.2 Sample.churnCard (by decide)
  ⟨by decide,
    h.1 Sample.heart (by decide)
      ⟨by decide, "https://x/heart-disease-prediction", by decide, by decide⟩,
    hheart.2.2.2.2.2.2.1 (by decide),
    hchurn.2.2.2.1 (by decide),
    by decide⟩

/-- C7 (counterexample): with no cache and the fetched array `[null]`, the run
writes the array to the cache and then `processModels` throws on it, so the
list put on display is the `[]` of the `catch` block, not a value of
`processModels`. -/
theorem first_visit_unprocessable_catalog :
    (processModels Ref.platform (some (arr [null]))).toOption = none ∧
      (fetchAndMergeModels Ref.platform Sample.noCache (Sample.catalog [null])).events =
        [Event.setIsLoading true, Event.fetch "https://portfolio.example/project/projects_data",
          Event.setItem "ml_models_cache" "[null]", Event.setModels [],
          Event.setIsLoading false] := by
  decide

/-- C7 (amended): when there is no usable cache and the fetch returns an array
`F`, one run calls `setItem` once, with key `ml_models_cache` and the
serialization of `F` (the slot then holds it, when the storage works), and
never reloads; when moreover `processModels` accepts `F`, the list on display
is `processModels(F)`.  For the array of the
end-to-end scenario the list on display is one card, named "Heart", with
accuracy "92% Accuracy" and stats "8 Features". -/
theorem first_visit_fills_cache_and_displays (pl : Platform) (st : Storage) (status : Nat) :
    (∀ (Data : JSON) (F : List JSON), isTruthy (loadCachedData pl st) = false →
        getField Data "data" = .ok (some (arr F)) →
        storageWrites (fetchAndMergeModels pl st (.response status (.ok Data))).events =
            [("ml_models_cache", pl.jsonStringify (arr F))] ∧
          reloadCount (fetchAndMergeModels pl st (.response status (.ok Data))).events = 0 ∧
          (st.denied = false → st.full = false →
            (fetchAndMergeModels pl st (.response status (.ok Data))).storage.slot =
              some (pl.jsonStringify (arr F))) ∧
          ∀ ms, processModels pl (some (arr F)) = .ok ms →
            displayedModels (fetchAndMergeModels pl st (.response status (.ok Data))).events
              = ms) ∧
      (isTruthy (loadCachedData pl st) = false →
        ∃ m, displayedModels (fetchAndMergeModels pl st
            (.response status (.ok (obj [("data", arr [Sample.heart])])))).events = [m] ∧
          m.name = some (str "Heart") ∧ m.accuracy = "92% Accuracy" ∧
          m.stats = "8 Features") := by
  constructor
  · intro Data F hc hD
    have hslot : st.denied = false → st.full = false →
        (fetchAndMergeModels pl st (.response status (.ok Data))).storage.slot =
          some (pl.jsonStringify (arr F)) := by
      intro hd hf
      rw [run_first_visit_storage pl st status Data F hc hD]
      exact saveCachedData_slot pl st (arr F) hd hf
    cases hp : processModels pl (some (arr F)) with
    | error e =>
      refine ⟨?_, ?_, hslot, ?_⟩ <;>
        simp [fetchAndMergeModels, tryBlock, fetchFresh, compareWithCache, hc, hp, hD,
          cacheText, stringifyValue, storageWrites, reloadCount, cacheKey]
    | ok ms =>
      refine ⟨?_, ?_, hslot, ?_⟩
      · rw [run_first_visit pl st status Data F ms hc hD hp]
        rfl
      · rw [run_first_visit pl st status Data F ms hc hD hp]
        rfl
      · intro ms1 h1
        rw [run_first_visit pl st status Data F ms hc hD hp]
        cases h1
        rfl
  · intro hc
    obtain ⟨m, hproc, hmerge⟩ := processModels_singleton pl Sample.heart
      ⟨by decide, "https://x/heart-disease-prediction", by decide, by decide⟩
    rw [run_first_visit pl st status (obj [("data", arr [Sample.heart])]) [Sample.heart] [m] hc
      (by decide) hproc]
    refine ⟨m, rfl, ?_⟩
    simp only [mergeModel, getField, Sample.heart, Except.ok.injEq] at hmerge
    subst hmerge
    exact ⟨rfl, rfl, rfl⟩

/-- C7 (witness): a first visit that fetches the end-to-end project and a blog
entry. -/
theorem first_visit_fills_cache_and_displays_witness :
    isTruthy (loadCachedData Ref.platform Sample.noCache) = false ∧
      storageWrites (fetchAndMergeModels Ref.platform Sample.noCache
          (.response 200 (.ok (obj [("data", arr [Sample.heart, Sample.blog])])))).events =
        [("ml_models_cache", Ref.platform.jsonStringify (arr [Sample.heart, Sample.blog]))] ∧
      reloadCount (fetchAndMergeModels Ref.platform Sample.noCache
          (.response 200 (.ok (obj [("data", arr [Sample.heart, Sample.blog])])))).events = 0 ∧
      (fetchAndMergeModels Ref.platform Sample.noCache
          (.response 200 (.ok (obj [("data", arr [Sample.heart, Sample.blog])])))).storage.slot =
        some (Ref.platform.jsonStringify (arr [Sample.heart, Sample.blog])) ∧
      displayedModels (fetchAndMergeModels Ref.platform Sample.noCache
          (.response 200 (.ok (obj [("data", arr [Sample.heart, Sample.blog])])))).events =
        [Sample.heartCard] :=
  have h := (first_visit_fills_cache_and_displays Ref.platform Sample.noCache 200).1
    (obj [("data", arr [Sample.heart, Sample.blog])]) [Sample.heart, Sample.blog] (by decide)
    (by decide)
  ⟨by decide, h.1, h.2.1, h.2.2.1 rfl rfl, h.2.2.2 [Sample.heartCard] (by decide)⟩

/-- C8: for each of the three proxy routes and every JSON payload `d` that the
upstream returns with a 2xx status, the route responds with status 200 and a
body that `JSON.parse` decodes to exactly `d`. -/
theorem proxy_success_relays_payload (pl : Platform) (status : Nat) (formData d : JSON)
    (hok : responseOk status = true) (hrt : RoundTrips pl d) :
    (Projects.GET pl (fun _ => .response status (.ok d))).status = 200 ∧
      pl.jsonParse (Projects.GET pl (fun _ => .response status (.ok d))).body = some d ∧
      (HealthCheck.GET pl (fun _ => .response status (.ok d))).status = 200 ∧
      pl.jsonParse (HealthCheck.GET pl (fun _ => .response status (.ok d))).body = some d ∧
      (HeartDisease.POST pl (.ok formData) (fun _ _ => .response status (.ok d))).status = 200 ∧
      pl.jsonParse (HeartDisease.POST pl (.ok formData)
        (fun _ _ => .response status (.ok d))).body = some d := by
  simp [Projects.GET, HealthCheck.GET, HeartDisease.POST, hok, hrt.2]

/-- C8 (witness): the upstream answers 200 with the end-to-end catalog. -/
theorem proxy_success_relays_payload_witness :
    responseOk 200 = true ∧
      (Projects.GET Ref.platform (fun _ => .response 200 (.ok (arr [Sample.heart])))).status
        = 200 ∧
      Ref.platform.jsonParse (Projects.GET Ref.platform
        (fun _ => .response 200 (.ok (arr [Sample.heart])))).body = some (arr [Sample.heart]) ∧
      (HealthCheck.GET Ref.platform (fun _ => .response 200 (.ok (arr [Sample.heart])))).status
        = 200 ∧
      Ref.platform.jsonParse (HealthCheck.GET Ref.platform
        (fun _ => .response 200 (.ok (arr [Sample.heart])))).body = some (arr [Sample.heart]) ∧
      (HeartDisease.POST Ref.platform (.ok (obj [("age", num 54)]))
        (fun _ _ => .response 200 (.ok (arr [Sample.heart])))).status = 200 ∧
      Ref.platform.jsonParse (HeartDisease.POST Ref.platform (.ok (obj [("age", num 54)]))
        (fun _ _ => .response 200 (.ok (arr [Sample.heart])))).body
        = some (arr [Sample.heart]) :=
  ⟨by decide,
    proxy_success_relays_payload Ref.platform 200 (obj [("age", num 54)]) (arr [Sample.heart])
      (by decide) ⟨by decide, by decide⟩⟩

/-- C9 (evaluation): a run issues one fetch unless the cached value is truthy
and `processModels` throws on it, and then it issues none.  On the reference
platform a first visit whose response carries `{"message":"down"}` as `data`
stores that text in the cache slot, and every later run, whatever the upstream
would answer, issues no fetch and leaves the slot as it is. -/
theorem poisoned_cache_suppresses_fetch :
    (∀ pl st up, fetchCount (fetchAndMergeModels pl st up).events = expectedFetches pl st) ∧
      (fetchAndMergeModels Ref.platform Sample.noCache Sample.outage).storage =
        Sample.cached "\x7b\"message\":\"down\"\x7d" ∧
      expectedFetches Ref.platform (Sample.cached "\x7b\"message\":\"down\"\x7d") = 0 ∧
      (∀ up, (fetchAndMergeModels Ref.platform (Sample.cached "\x7b\"message\":\"down\"\x7d")
          up).events =
        [Event.setIsLoading true, Event.setModels [], Event.setIsLoading false]) ∧
      (∀ up, (fetchAndMergeModels Ref.platform (Sample.cached "\x7b\"message\":\"down\"\x7d")
          up).storage = Sample.cached "\x7b\"message\":\"down\"\x7d") := by
  refine ⟨fetchCount_run, by decide, by decide, ?_, ?_⟩
  · intro up
    exact (run_cache_rejected Ref.platform _ up "fetchedData.filter is not a function"
      (by decide) (by decide)).1
  · intro up
    exact (run_cache_rejected Ref.platform _ up "fetchedData.filter is not a function"
      (by decide) (by decide)).2

/-- C10: for every JSON array `B`, once `saveCachedData(B)` has succeeded,
`loadCachedData` returns a value that `areArraysEqual` finds equal to `B`; so
the run that follows, when its fetch returns `B` again, calls `setItem` never
and reloads never.  In particular the run after a change-triggered reload
(cache `A`, fetch `B`, different) meets that storage and is silent. -/
theorem saved_catalog_reloads_once (pl : Platform) (st : Storage) (B : List JSON)
    (hsave : (saveCachedData pl st (some (arr B))).1 = true) (hrt : RoundTrips pl (arr B)) :
    areArraysEqual pl (some (loadCachedData pl (saveCachedData pl st (some (arr B))).2))
        (some (arr B)) = true ∧
      (∀ status Data, getField Data "data" = .ok (some (arr B)) →
        storageWrites (fetchAndMergeModels pl (saveCachedData pl st (some (arr B))).2
          (.response status (.ok Data))).events = [] ∧
        reloadCount (fetchAndMergeModels pl (saveCachedData pl st (some (arr B))).2
          (.response status (.ok Data))).events = 0) ∧
      (∀ status0 Data0 A ms, loadCachedData pl st = arr A →
        processModels pl (some (arr A)) = .ok ms →
        getField Data0 "data" = .ok (some (arr B)) →
        (A.length ≠ B.length ∨ pl.jsonStringify (arr A) ≠ pl.jsonStringify (arr B)) →
        reloadCount (fetchAndMergeModels pl st (.response status0 (.ok Data0))).events = 1 ∧
        ∀ status Data, getField Data "data" = .ok (some (arr B)) →
          storageWrites (fetchAndMergeModels pl
            (fetchAndMergeModels pl st (.response status0 (.ok Data0))).storage
            (.response status (.ok Data))).events = [] ∧
          reloadCount (fetchAndMergeModels pl
            (fetchAndMergeModels pl st (.response status0 (.ok Data0))).storage
            (.response status (.ok Data))).events = 0) := by
  have hload : loadCachedData pl (saveCachedData pl st (some (arr B))).2 = arr B := by
    unfold saveCachedData at hsave ⊢
    by_cases hd : (st.denied || st.full) = true
    · simp [hd] at hsave
    · have hflags : st.denied = false ∧ st.full = false := by simpa using hd
      simp [hflags.1, hflags.2, loadCachedData, cacheText, stringifyValue, hrt.1, hrt.2]
  have hsilent : ∀ status Data, getField Data "data" = .ok (some (arr B)) →
      storageWrites (fetchAndMergeModels pl (saveCachedData pl st (some (arr B))).2
        (.response status (.ok Data))).events = [] ∧
      reloadCount (fetchAndMergeModels pl (saveCachedData pl st (some (arr B))).2
        (.response status (.ok Data))).events = 0 := by
    intro status Data hD
    cases hp : processModels pl (some (arr B)) with
    | error e =>
      rw [(run_cache_rejected pl _ (.response status (.ok Data)) e (by rw [hload]; rfl)
        (by rw [hload]; exact hp)).1]
      exact ⟨rfl, rfl⟩
    | ok ms =>
      rw [(run_unchanged pl _ status Data B B ms hload hp hD rfl rfl).1]
      exact ⟨rfl, rfl⟩
  refine ⟨?_, hsilent, ?_⟩
  · rw [hload, areArraysEqual_arr]
    simp
  · intro status0 Data0 A ms hA hproc hD0 hne
    obtain ⟨hev, hst⟩ := run_changed pl st status0 Data0 A B ms hA hproc hD0 hne
    rw [hst]
    refine ⟨?_, hsilent⟩
    rw [hev]
    rfl

/-- C10 (witness): the cache holds `[]`, the fetch returns the end-to-end catalog,
and the run after the reload fetches it again. -/
theorem saved_catalog_reloads_once_witness :
    (saveCachedData Ref.platform (Sample.cached "[]") (some (arr [Sample.heart]))).1 = true ∧
      areArraysEqual Ref.platform
        (some (loadCachedData Ref.platform
          (saveCachedData Ref.platform (Sample.cached "[]") (some (arr [Sample.heart]))).2))
        (some (arr [Sample.heart])) = true ∧
      reloadCount (fetchAndMergeModels Ref.platform (Sample.cached "[]")
        (Sample.catalog [Sample.heart])).events = 1 ∧
      reloadCount (fetchAndMergeModels Ref.platform
        (fetchAndMergeModels Ref.platform (Sample.cached "[]")
          (Sample.catalog [Sample.heart])).storage
        (Sample.catalog [Sample.heart])).events = 0 ∧
      storageWrites (fetchAndMergeModels Ref.platform
        (fetchAndMergeModels Ref.platform (Sample.cached "[]")
          (Sample.catalog [Sample.heart])).storage
        (Sample.catalog [Sample.heart])).events = [] :=
  have h := saved_catalog_reloads_once Ref.platform (Sample.cached "[]") [Sample.heart]
    (by decide) ⟨by decide, by decide⟩
  have h3 := h.2.2 200 (obj [("data", arr [Sample.heart])]) [] [] (by decide) (by decide)
    (by decide) (Or.inl (by decide))
  have h4 := h3.2 200 (obj [("data", arr [Sample.heart])]) (by decide)
  ⟨by decide, h.1, h3.1, h4.2, h4.1⟩

end MlModels
